import Mathlib

/-
  Verification of the pure-Python AES / AES-GCM implementation in src/aes.py.

  Shallow embedding conventions:
  - Python int lists become List Nat; byte values are naturals, with the
    hypothesis that they lie below 256 added where a claim assumes bytes.
  - Python slice expressions are translated with their clamping semantics:
    xs[a:b] for nonnegative a, b is (xs.take b).drop a, negative indices are
    len-relative with clamping at 0 (Nat subtraction clamps the same way).
  - Python exceptions become Except PyErr; the only exception classes raised
    by the module are ValueError and NotImplementedError.
  - Generators (iter_vector) are modelled by threading the counter through the
    block recursion: block i is processed with counter inc^[i] iv, which is
    exactly the sequence iter_vector yields.
-/

namespace Aes

set_option maxRecDepth 10000

/-- Error universe of the module. The source raises ValueError for length and
tag failures and NotImplementedError for unknown padding modes. The
constructor for an authentication failure class is modelled from the spec:
section 7 of the spec demands a distinct AuthenticationError kind, but no such
class exists anywhere in the repository, so no code path produces it. -/
inductive PyErr where
  | valueError (msg : String)
  | notImplementedError (msg : String)
  | authenticationError (msg : String)
deriving DecidableEq, Repr

instance {ε α : Type} [DecidableEq ε] [DecidableEq α] : DecidableEq (Except ε α) := fun a b =>
  match a, b with
  | .error x, .error y =>
    decidable_of_iff (x = y) ⟨fun h => by rw [h], fun h => by injection h⟩
  | .error _, .ok _ => isFalse (fun h => Except.noConfusion h)
  | .ok _, .error _ => isFalse (fun h => Except.noConfusion h)
  | .ok x, .ok y =>
    decidable_of_iff (x = y) ⟨fun h => by rw [h], fun h => by injection h⟩

def BLOCK_SIZE_BYTES : Nat := 16

/-- compat_ord on an int is the identity. -/
def compat_ord (c : Nat) : Nat := c

/-- xor(data1, data2): elementwise xor, truncating to the shorter list the way
Python zip does. -/
def xor (data1 data2 : List Nat) : List Nat :=
  List.zipWith (fun x y => x ^^^ y) data1 data2

def RCON : List Nat :=
  [0x8D, 0x01, 0x02, 0x04, 0x08, 0x10, 0x20, 0x40, 0x80, 0x1B, 0x36]

def SBOX : List Nat :=
  [0x63, 0x7C, 0x77, 0x7B, 0xF2, 0x6B, 0x6F, 0xC5, 0x30, 0x01, 0x67, 0x2B, 0xFE, 0xD7, 0xAB, 0x76,
   0xCA, 0x82, 0xC9, 0x7D, 0xFA, 0x59, 0x47, 0xF0, 0xAD, 0xD4, 0xA2, 0xAF, 0x9C, 0xA4, 0x72, 0xC0,
   0xB7, 0xFD, 0x93, 0x26, 0x36, 0x3F, 0xF7, 0xCC, 0x34, 0xA5, 0xE5, 0xF1, 0x71, 0xD8, 0x31, 0x15,
   0x04, 0xC7, 0x23, 0xC3, 0x18, 0x96, 0x05, 0x9A, 0x07, 0x12, 0x80, 0xE2, 0xEB, 0x27, 0xB2, 0x75,
   0x09, 0x83, 0x2C, 0x1A, 0x1B, 0x6E, 0x5A, 0xA0, 0x52, 0x3B, 0xD6, 0xB3, 0x29, 0xE3, 0x2F, 0x84,
   0x53, 0xD1, 0x00, 0xED, 0x20, 0xFC, 0xB1, 0x5B, 0x6A, 0xCB, 0xBE, 0x39, 0x4A, 0x4C, 0x58, 0xCF,
   0xD0, 0xEF, 0xAA, 0xFB, 0x43, 0x4D, 0x33, 0x85, 0x45, 0xF9, 0x02, 0x7F, 0x50, 0x3C, 0x9F, 0xA8,
   0x51, 0xA3, 0x40, 0x8F, 0x92, 0x9D, 0x38, 0xF5, 0xBC, 0xB6, 0xDA, 0x21, 0x10, 0xFF, 0xF3, 0xD2,
   0xCD, 0x0C, 0x13, 0xEC, 0x5F, 0x97, 0x44, 0x17, 0xC4, 0xA7, 0x7E, 0x3D, 0x64, 0x5D, 0x19, 0x73,
   0x60, 0x81, 0x4F, 0xDC, 0x22, 0x2A, 0x90, 0x88, 0x46, 0xEE, 0xB8, 0x14, 0xDE, 0x5E, 0x0B, 0xDB,
   0xE0, 0x32, 0x3A, 0x0A, 0x49, 0x06, 0x24, 0x5C, 0xC2, 0xD3, 0xAC, 0x62, 0x91, 0x95, 0xE4, 0x79,
   0xE7, 0xC8, 0x37, 0x6D, 0x8D, 0xD5, 0x4E, 0xA9, 0x6C, 0x56, 0xF4, 0xEA, 0x65, 0x7A, 0xAE, 0x08,
   0xBA, 0x78, 0x25, 0x2E, 0x1C, 0xA6, 0xB4, 0xC6, 0xE8, 0xDD, 0x74, 0x1F, 0x4B, 0xBD, 0x8B, 0x8A,
   0x70, 0x3E, 0xB5, 0x66, 0x48, 0x03, 0xF6, 0x0E, 0x61, 0x35, 0x57, 0xB9, 0x86, 0xC1, 0x1D, 0x9E,
   0xE1, 0xF8, 0x98, 0x11, 0x69, 0xD9, 0x8E, 0x94, 0x9B, 0x1E, 0x87, 0xE9, 0xCE, 0x55, 0x28, 0xDF,
   0x8C, 0xA1, 0x89, 0x0D, 0xBF, 0xE6, 0x42, 0x68, 0x41, 0x99, 0x2D, 0x0F, 0xB0, 0x54, 0xBB, 0x16]

def SBOX_INV : List Nat :=
  [0x52, 0x09, 0x6A, 0xD5, 0x30, 0x36, 0xA5, 0x38, 0xBF, 0x40, 0xA3, 0x9E, 0x81, 0xF3, 0xD7, 0xFB,
   0x7C, 0xE3, 0x39, 0x82, 0x9B, 0x2F, 0xFF, 0x87, 0x34, 0x8E, 0x43, 0x44, 0xC4, 0xDE, 0xE9, 0xCB,
   0x54, 0x7B, 0x94, 0x32, 0xA6, 0xC2, 0x23, 0x3D, 0xEE, 0x4C, 0x95, 0x0B, 0x42, 0xFA, 0xC3, 0x4E,
   0x08, 0x2E, 0xA1, 0x66, 0x28, 0xD9, 0x24, 0xB2, 0x76, 0x5B, 0xA2, 0x49, 0x6D, 0x8B, 0xD1, 0x25,
   0x72, 0xF8, 0xF6, 0x64, 0x86, 0x68, 0x98, 0x16, 0xD4, 0xA4, 0x5C, 0xCC, 0x5D, 0x65, 0xB6, 0x92,
   0x6C, 0x70, 0x48, 0x50, 0xFD, 0xED, 0xB9, 0xDA, 0x5E, 0x15, 0x46, 0x57, 0xA7, 0x8D, 0x9D, 0x84,
   0x90, 0xD8, 0xAB, 0x00, 0x8C, 0xBC, 0xD3, 0x0A, 0xF7, 0xE4, 0x58, 0x05, 0xB8, 0xB3, 0x45, 0x06,
   0xD0, 0x2C, 0x1E, 0x8F, 0xCA, 0x3F, 0x0F, 0x02, 0xC1, 0xAF, 0xBD, 0x03, 0x01, 0x13, 0x8A, 0x6B,
   0x3A, 0x91, 0x11, 0x41, 0x4F, 0x67, 0xDC, 0xEA, 0x97, 0xF2, 0xCF, 0xCE, 0xF0, 0xB4, 0xE6, 0x73,
   0x96, 0xAC, 0x74, 0x22, 0xE7, 0xAD, 0x35, 0x85, 0xE2, 0xF9, 0x37, 0xE8, 0x1C, 0x75, 0xDF, 0x6E,
   0x47, 0xF1, 0x1A, 0x71, 0x1D, 0x29, 0xC5, 0x89, 0x6F, 0xB7, 0x62, 0x0E, 0xAA, 0x18, 0xBE, 0x1B,
   0xFC, 0x56, 0x3E, 0x4B, 0xC6, 0xD2, 0x79, 0x20, 0x9A, 0xDB, 0xC0, 0xFE, 0x78, 0xCD, 0x5A, 0xF4,
   0x1F, 0xDD, 0xA8, 0x33, 0x88, 0x07, 0xC7, 0x31, 0xB1, 0x12, 0x10, 0x59, 0x27, 0x80, 0xEC, 0x5F,
   0x60, 0x51, 0x7F, 0xA9, 0x19, 0xB5, 0x4A, 0x0D, 0x2D, 0xE5, 0x7A, 0x9F, 0x93, 0xC9, 0x9C, 0xEF,
   0xA0, 0xE0, 0x3B, 0x4D, 0xAE, 0x2A, 0xF5, 0xB0, 0xC8, 0xEB, 0xBB, 0x3C, 0x83, 0x53, 0x99, 0x61,
   0x17, 0x2B, 0x04, 0x7E, 0xBA, 0x77, 0xD6, 0x26, 0xE1, 0x69, 0x14, 0x63, 0x55, 0x21, 0x0C, 0x7D]

def MIX_COLUMN_MATRIX : List (List Nat) :=
  [[2, 3, 1, 1], [1, 2, 3, 1], [1, 1, 2, 3], [3, 1, 1, 2]]

def MIX_COLUMN_MATRIX_INV : List (List Nat) :=
  [[0xE, 0xB, 0xD, 0x9], [0x9, 0xE, 0xB, 0xD], [0xD, 0x9, 0xE, 0xB], [0xB, 0xD, 0x9, 0xE]]

def RIJNDAEL_EXP_TABLE : List Nat :=
  [0x01, 0x03, 0x05, 0x0F, 0x11, 0x33, 0x55, 0xFF, 0x1A, 0x2E, 0x72, 0x96, 0xA1, 0xF8, 0x13, 0x35,
   0x5F, 0xE1, 0x38, 0x48, 0xD8, 0x73, 0x95, 0xA4, 0xF7, 0x02, 0x06, 0x0A, 0x1E, 0x22, 0x66, 0xAA,
   0xE5, 0x34, 0x5C, 0xE4, 0x37, 0x59, 0xEB, 0x26, 0x6A, 0xBE, 0xD9, 0x70, 0x90, 0xAB, 0xE6, 0x31,
   0x53, 0xF5, 0x04, 0x0C, 0x14, 0x3C, 0x44, 0xCC, 0x4F, 0xD1, 0x68, 0xB8, 0xD3, 0x6E, 0xB2, 0xCD,
   0x4C, 0xD4, 0x67, 0xA9, 0xE0, 0x3B, 0x4D, 0xD7, 0x62, 0xA6, 0xF1, 0x08, 0x18, 0x28, 0x78, 0x88,
   0x83, 0x9E, 0xB9, 0xD0, 0x6B, 0xBD, 0xDC, 0x7F, 0x81, 0x98, 0xB3, 0xCE, 0x49, 0xDB, 0x76, 0x9A,
   0xB5, 0xC4, 0x57, 0xF9, 0x10, 0x30, 0x50, 0xF0, 0x0B, 0x1D, 0x27, 0x69, 0xBB, 0xD6, 0x61, 0xA3,
   0xFE, 0x19, 0x2B, 0x7D, 0x87, 0x92, 0xAD, 0xEC, 0x2F, 0x71, 0x93, 0xAE, 0xE9, 0x20, 0x60, 0xA0,
   0xFB, 0x16, 0x3A, 0x4E, 0xD2, 0x6D, 0xB7, 0xC2, 0x5D, 0xE7, 0x32, 0x56, 0xFA, 0x15, 0x3F, 0x41,
   0xC3, 0x5E, 0xE2, 0x3D, 0x47, 0xC9, 0x40, 0xC0, 0x5B, 0xED, 0x2C, 0x74, 0x9C, 0xBF, 0xDA, 0x75,
   0x9F, 0xBA, 0xD5, 0x64, 0xAC, 0xEF, 0x2A, 0x7E, 0x82, 0x9D, 0xBC, 0xDF, 0x7A, 0x8E, 0x89, 0x80,
   0x9B, 0xB6, 0xC1, 0x58, 0xE8, 0x23, 0x65, 0xAF, 0xEA, 0x25, 0x6F, 0xB1, 0xC8, 0x43, 0xC5, 0x54,
   0xFC, 0x1F, 0x21, 0x63, 0xA5, 0xF4, 0x07, 0x09, 0x1B, 0x2D, 0x77, 0x99, 0xB0, 0xCB, 0x46, 0xCA,
   0x45, 0xCF, 0x4A, 0xDE, 0x79, 0x8B, 0x86, 0x91, 0xA8, 0xE3, 0x3E, 0x42, 0xC6, 0x51, 0xF3, 0x0E,
   0x12, 0x36, 0x5A, 0xEE, 0x29, 0x7B, 0x8D, 0x8C, 0x8F, 0x8A, 0x85, 0x94, 0xA7, 0xF2, 0x0D, 0x17,
   0x39, 0x4B, 0xDD, 0x7C, 0x84, 0x97, 0xA2, 0xFD, 0x1C, 0x24, 0x6C, 0xB4, 0xC7, 0x52, 0xF6, 0x01]

def RIJNDAEL_LOG_TABLE : List Nat :=
  [0x00, 0x00, 0x19, 0x01, 0x32, 0x02, 0x1A, 0xC6, 0x4B, 0xC7, 0x1B, 0x68, 0x33, 0xEE, 0xDF, 0x03,
   0x64, 0x04, 0xE0, 0x0E, 0x34, 0x8D, 0x81, 0xEF, 0x4C, 0x71, 0x08, 0xC8, 0xF8, 0x69, 0x1C, 0xC1,
   0x7D, 0xC2, 0x1D, 0xB5, 0xF9, 0xB9, 0x27, 0x6A, 0x4D, 0xE4, 0xA6, 0x72, 0x9A, 0xC9, 0x09, 0x78,
   0x65, 0x2F, 0x8A, 0x05, 0x21, 0x0F, 0xE1, 0x24, 0x12, 0xF0, 0x82, 0x45, 0x35, 0x93, 0xDA, 0x8E,
   0x96, 0x8F, 0xDB, 0xBD, 0x36, 0xD0, 0xCE, 0x94, 0x13, 0x5C, 0xD2, 0xF1, 0x40, 0x46, 0x83, 0x38,
   0x66, 0xDD, 0xFD, 0x30, 0xBF, 0x06, 0x8B, 0x62, 0xB3, 0x25, 0xE2, 0x98, 0x22, 0x88, 0x91, 0x10,
   0x7E, 0x6E, 0x48, 0xC3, 0xA3, 0xB6, 0x1E, 0x42, 0x3A, 0x6B, 0x28, 0x54, 0xFA, 0x85, 0x3D, 0xBA,
   0x2B, 0x79, 0x0A, 0x15, 0x9B, 0x9F, 0x5E, 0xCA, 0x4E, 0xD4, 0xAC, 0xE5, 0xF3, 0x73, 0xA7, 0x57,
   0xAF, 0x58, 0xA8, 0x50, 0xF4, 0xEA, 0xD6, 0x74, 0x4F, 0xAE, 0xE9, 0xD5, 0xE7, 0xE6, 0xAD, 0xE8,
   0x2C, 0xD7, 0x75, 0x7A, 0xEB, 0x16, 0x0B, 0xF5, 0x59, 0xCB, 0x5F, 0xB0, 0x9C, 0xA9, 0x51, 0xA0,
   0x7F, 0x0C, 0xF6, 0x6F, 0x17, 0xC4, 0x49, 0xEC, 0xD8, 0x43, 0x1F, 0x2D, 0xA4, 0x76, 0x7B, 0xB7,
   0xCC, 0xBB, 0x3E, 0x5A, 0xFB, 0x60, 0xB1, 0x86, 0x3B, 0x52, 0xA1, 0x6C, 0xAA, 0x55, 0x29, 0x9D,
   0x97, 0xB2, 0x87, 0x90, 0x61, 0xBE, 0xDC, 0xFC, 0xBC, 0x95, 0xCF, 0xCD, 0x37, 0x3F, 0x5B, 0xD1,
   0x53, 0x39, 0x84, 0x3C, 0x41, 0xA2, 0x6D, 0x47, 0x14, 0x2A, 0x9E, 0x5D, 0x56, 0xF2, 0xD3, 0xAB,
   0x44, 0x11, 0x92, 0xD9, 0x23, 0x20, 0x2E, 0x89, 0xB4, 0x7C, 0xB8, 0x26, 0x77, 0x99, 0xE3, 0xA5,
   0x67, 0x4A, 0xED, 0xDE, 0xC5, 0x31, 0xFE, 0x18, 0x0D, 0x63, 0x8C, 0x80, 0xC0, 0xF7, 0x70, 0x07]

def EXPN : Nat :=
  247704880781559356684414323119999879637317647180040216102211349143305888774923398537951341803642731683984666991564019150676315804531779449815159115664189418245566988781254625896260912026622159780553349108386186142268315007856282091988200171439146255715840100601167723801170608095743514940052926055042184507632911811387723359914440662207451538163404716729158929845121383729837235901114109841630616474463024741216292666125260571984924724184385554713500007113061044175325657975136216706165622836048350080632971744177780693200859426168487707538171671676645432511882666690861394815764438377708986394032816479809277592321

def LOGN : Nat :=
  939374623831894136699086600277250597547650664638770418422125146541797353646788332867483593573384618611044815625336497665827114626705134492515730415652478061620339993830966980270842846318821775850471098591710629241171812800746666233448222972174585295916389942636813666312872914849454985560152530477328703759683306625234997237483834721220409437442253146756845415190424543171129629468776480674528486868811725071010351012234056630775688111116293610821126543142160426617079940511630006820862697466582575257349116925728488930366609138264019883664906661504235885380294353134295748489096855100647154935187045898006656778240

def SBOXN : Nat :=
  2869618975290639062594974519597816386035077209210385677284518162336985023502962151465775969507961862820568736543004676439868535775640188584098917533413284844376797297285941524888791401501466624530423689326528054213168201056672989590893583853414110162539122864583953358348775951166211353578440977400428507475679327181038682772945817200201960445064847785221508011893952350688324234443749897213621340677040612747745615276448919507935121141307752692835344166708617454322778699219895865633266409040561742768581056182730443599545881830075941537620590442514083341749674612746994879540562701631131184186066652929592955206755

def SBOXINVN : Nat :=
  15785769749828884342349381641981096363179738000380205650940338083111619982568718420166261191398703005748170232611805704157196303061330872280026969925224128193193768962594508714770967646139604422718174787315048227180018877623049221087186576642191304514338137614235628241783007805847129270530950856841486400764657112140097236091222567730363620332611309375046737430203438830593833719428588466121688739068564421474273450162064709239629809347626728710072303178617319436726577534667237755444692000788692193415136619289353224918429728194544458916874716857284226411602766869706570927007876872095880586785662942963508062062930


/-- sub_bytes: SBOX lookup per byte (list indexing modelled by getD 0; the
source indexes with byte values that are always in range). -/
def sub_bytes (data : List Nat) : List Nat := data.map (fun x => SBOX.getD x 0)

def sub_bytes_inv (data : List Nat) : List Nat := data.map (fun x => SBOX_INV.getD x 0)

/-- rotate(data) = data[1:] + [data[0]]. -/
def rotate (data : List Nat) : List Nat :=
  match data with
  | [] => []
  | x :: rest => rest ++ [x]

/-- key_schedule_core: rotate, substitute, xor the first byte with a round
constant. -/
def key_schedule_core (data : List Nat) (rcon_iteration : Nat) : List Nat :=
  match sub_bytes (rotate data) with
  | [] => []
  | x :: rest => (x ^^^ RCON.getD rcon_iteration 0) :: rest

/-- The GF(2^8) product used inside iter_mix_columns, literally the source
expression: 0 if either operand is 0, else EXP[(LOG[x] + LOG[r]) % 0xFF]. -/
def gmul (x r : Nat) : Nat :=
  if x = 0 ∨ r = 0 then 0
  else RIJNDAEL_EXP_TABLE.getD
    ((RIJNDAEL_LOG_TABLE.getD x 0 + RIJNDAEL_LOG_TABLE.getD r 0) % 255) 0

/-- One column of iter_mix_columns: for each matrix row, fold the xor of the
four GF(2^8) products. -/
def mix_column (col : List Nat) (matrix : List (List Nat)) : List Nat :=
  matrix.map (fun row =>
    (List.range 4).foldl (fun mixed j => mixed ^^^ gmul (col.getD j 0) (row.getD j 0)) 0)

/-- iter_mix_columns: the source loops i over (0, 4, 8, 12) and yields the four
mixed bytes of the column data[i:i+4] for each matrix row. -/
def iter_mix_columns (data : List Nat) (matrix : List (List Nat)) : List Nat :=
  (([0, 4, 8, 12] : List Nat).map (fun i => mix_column ((data.drop i).take 4) matrix)).flatten

/-- shift_rows: output position 4*column + row takes input byte
((column + row) & 0b11) * 4 + row. -/
def shift_rows (data : List Nat) : List Nat :=
  ((List.range 4).map (fun column =>
    (List.range 4).map (fun row => data.getD (((column + row) &&& 3) * 4 + row) 0))).flatten

/-- shift_rows_inv: the source computes (column - row) & 0b11 on Python ints,
where the bitwise and of a negative value acts on the twos complement, so the
index is (column - row) mod 4; for row < 4 this equals (column + 4 - row) & 3
over Nat. -/
def shift_rows_inv (data : List Nat) : List Nat :=
  ((List.range 4).map (fun column =>
    (List.range 4).map (fun row => data.getD (((column + 4 - row) &&& 3) * 4 + row) 0))).flatten

/-- expanded_key[i*16 : (i+1)*16]. -/
def keypart (expanded_key : List Nat) (i : Nat) : List Nat :=
  (expanded_key.drop (i * BLOCK_SIZE_BYTES)).take BLOCK_SIZE_BYTES

/-- The body of the aes_encrypt round loop. -/
def enc_round (expanded_key : List Nat) (rounds : Nat) (d : List Nat) (i : Nat) : List Nat :=
  let d := sub_bytes d
  let d := shift_rows d
  let d := if i ≠ rounds then iter_mix_columns d MIX_COLUMN_MATRIX else d
  xor d (keypart expanded_key i)

/-- aes_encrypt: one block. rounds = len(expanded_key)//16 - 1; round i applies
sub_bytes, shift_rows, iter_mix_columns (except in the last round) and xors the
round key slice; round 0 is the initial key xor. -/
def aes_encrypt (data expanded_key : List Nat) : List Nat :=
  let rounds := expanded_key.length / BLOCK_SIZE_BYTES - 1
  (List.range' 1 rounds).foldl (enc_round expanded_key rounds)
    (xor data (expanded_key.take BLOCK_SIZE_BYTES))

/-- The body of the aes_decrypt round loop. -/
def dec_round (expanded_key : List Nat) (rounds : Nat) (d : List Nat) (i : Nat) : List Nat :=
  let d := xor d (keypart expanded_key i)
  let d := if i ≠ rounds then iter_mix_columns d MIX_COLUMN_MATRIX_INV else d
  let d := shift_rows_inv d
  sub_bytes_inv d

/-- aes_decrypt: exact mirror of aes_encrypt, i running from rounds down to 1
(range(rounds, 0, -1) is the reverse of [1..rounds]). -/
def aes_decrypt (data expanded_key : List Nat) : List Nat :=
  let rounds := expanded_key.length / BLOCK_SIZE_BYTES - 1
  xor
    ((List.range' 1 rounds).reverse.foldl (dec_round expanded_key rounds) data)
    (expanded_key.take BLOCK_SIZE_BYTES)

/-- data[-n:] for n >= 1, with Python clamping (the whole list when n >= len). -/
def last_n (n : Nat) (l : List Nat) : List Nat := l.drop (l.length - n)

/-- data[-ks : 4-ks] for ks > 4: start max(0, len-ks), stop max(0, len-(ks-4)).
Nat subtraction clamps at 0 exactly like the Python slice bounds. -/
def back_slice (ks : Nat) (l : List Nat) : List Nat :=
  (l.take (l.length - (ks - 4))).drop (l.length - ks)

/-- One data += xor(w, data[-ks : 4-ks]) step of key_expansion, where w is the
current temp word. -/
def ks_step (ks : Nat) (w : List Nat) (data : List Nat) : List Nat :=
  data ++ xor w (back_slice ks data)

/-- A plain step: temp = data[-4:], data += xor(temp, data[-ks:4-ks]). -/
def ks_plain (ks : Nat) (data : List Nat) : List Nat := ks_step ks (last_n 4 data) data

/-- One iteration of the key_expansion while-loop body. -/
def key_exp_iter (ks rcon : Nat) (data : List Nat) : List Nat :=
  let d1 := ks_step ks (key_schedule_core (last_n 4 data) rcon) data
  let d2 := ks_plain ks (ks_plain ks (ks_plain ks d1))
  let d3 := if ks = 32 then ks_step ks (sub_bytes (last_n 4 d2)) d2 else d2
  if ks = 32 then ks_plain ks (ks_plain ks (ks_plain ks d3))
  else if ks = 24 then ks_plain ks (ks_plain ks d3)
  else d3

/-- The key_expansion while-loop: repeat the body while the data is shorter
than the expanded size. Fuel bounds the iteration count; key_expansion passes
fuel equal to the target size, far more than the at most 10 iterations any
valid key needs, so the loop always runs to its stop condition. -/
def key_exp_loop : Nat → Nat → Nat → Nat → List Nat → List Nat
  | 0, _, _, _, data => data
  | fuel + 1, ks, target, rcon, data =>
      if data.length < target then
        key_exp_loop fuel ks target (rcon + 1) (key_exp_iter ks rcon data)
      else data

/-- key_expansion: expand a 16/24/32 byte key to (ks/4 + 7) * 16 bytes. -/
def key_expansion (data : List Nat) : List Nat :=
  let ks := data.length
  let target := (ks / 4 + 7) * BLOCK_SIZE_BYTES
  (key_exp_loop target ks target 1 data).take target

/-- inc scans from the final byte backward, turning 255 into 0 and carrying,
and increments the first byte that is not 255. incRev is that scan on the
reversed list. -/
def incRev : List Nat → List Nat
  | [] => []
  | x :: rest => if x = 255 then 0 :: incRev rest else (x + 1) :: rest

def inc (data : List Nat) : List Nat := (incRev data.reverse).reverse

/-- pkcs7_padding: append remaining_length bytes of value remaining_length,
where remaining_length = 16 - len % 16 (16 for an aligned input). -/
def pkcs7_padding (data : List Nat) : List Nat :=
  let remaining_length := BLOCK_SIZE_BYTES - data.length % BLOCK_SIZE_BYTES
  data ++ List.replicate remaining_length remaining_length

/-- unpad_pkcs7(data) = data[:-data[-1]]. In Python a slice stop of -n with
n >= 1 clamps to max(0, len-n), but -0 is 0, so a trailing byte of 0 yields
data[:0] = []. data[-1] on an empty list raises IndexError; the claims only
use nonempty data, and the embedding reads the last byte with getLastD 0. -/
def unpad_pkcs7 (data : List Nat) : List Nat :=
  if compat_ord (data.getLastD 0) = 0 then []
  else data.take (data.length - compat_ord (data.getLastD 0))

/-- The CTR block loop: encrypt the counter, xor with the zero-extended data
block, continue with the incremented counter. Counter block i is inc^[i] iv,
the i-th value yielded by iter_vector(iv). The fuel argument only makes the
recursion structural; it strictly dominates the block count whenever the data
is nonempty, and the wrapper below passes the data length. -/
def aes_ctr_blocks_go : Nat → List Nat → List Nat → List Nat → List Nat
  | 0, _, _, _ => []
  | fuel + 1, expanded_key, data, counter =>
    if data.length = 0 then []
    else
      let block := data.take BLOCK_SIZE_BYTES
      let block := block ++ List.replicate (BLOCK_SIZE_BYTES - block.length) 0
      xor block (aes_encrypt counter expanded_key)
        ++ aes_ctr_blocks_go fuel expanded_key (data.drop BLOCK_SIZE_BYTES) (inc counter)

def aes_ctr_blocks (expanded_key : List Nat) (data : List Nat) (counter : List Nat) : List Nat :=
  aes_ctr_blocks_go data.length expanded_key data counter

/-- aes_ctr_encrypt: block count is ceil(len/16), so the loop consumes the data
16 bytes at a time; the output is truncated to the input length. -/
def aes_ctr_encrypt (data key iv : List Nat) : List Nat :=
  (aes_ctr_blocks (key_expansion key) data iv).take data.length

/-- aes_ctr_decrypt is aes_ctr_encrypt. -/
def aes_ctr_decrypt (data key iv : List Nat) : List Nat := aes_ctr_encrypt data key iv

/-- The ECB block loop: each 16-byte slice is pkcs7-padded and encrypted.
Fuel as in aes_ctr_blocks_go. -/
def aes_ecb_blocks_go : Nat → List Nat → List Nat → List Nat
  | 0, _, _ => []
  | fuel + 1, expanded_key, data =>
    if data.length = 0 then []
    else
      aes_encrypt (pkcs7_padding (data.take BLOCK_SIZE_BYTES)) expanded_key
        ++ aes_ecb_blocks_go fuel expanded_key (data.drop BLOCK_SIZE_BYTES)

def aes_ecb_blocks (expanded_key : List Nat) (data : List Nat) : List Nat :=
  aes_ecb_blocks_go data.length expanded_key data

/-- aes_ecb_encrypt (the unused iv parameter is dropped). -/
def aes_ecb_encrypt (data key : List Nat) : List Nat :=
  aes_ecb_blocks (key_expansion key) data

/-- shift_block with the carried bit threaded through the byte list: the
source sets n |= 0x100 when a bit was carried, records n & 1 as the next
carry, and emits n >> 1. -/
def shift_block_aux : Nat → List Nat → List Nat
  | _, [] => []
  | bit, n :: rest =>
      let m := if bit ≠ 0 then n ||| 0x100 else n
      (m >>> 1) :: shift_block_aux (m &&& 1) rest

def shift_block (data : List Nat) : List Nat := shift_block_aux 0 data

/-- block_r = [0xE1] + [0]*15. -/
def block_r : List Nat := 0xE1 :: List.replicate 15 0

/-- The per-bit update of block_v in block_product: do_xor = block_v[-1] & 1,
shift, then conditionally xor block_r. -/
def vstep (v : List Nat) : List Nat :=
  let do_x := v.getLastD 0 &&& 1
  let v2 := shift_block v
  if do_x ≠ 0 then xor v2 block_r else v2

/-- One bit of the block_product loop: conditionally accumulate block_v into
block_z, then step block_v. -/
def bp_bit (i : Nat) (zv : List Nat × List Nat) (bit : Nat) : List Nat × List Nat :=
  (if i &&& (1 <<< bit) ≠ 0 then xor zv.1 zv.2 else zv.1, vstep zv.2)

/-- The double loop of block_product: bytes of block_x outer, bits 7..0
inner. -/
def block_product_core (block_x block_y : List Nat) : List Nat :=
  (block_x.foldl (fun zv i => ([7, 6, 5, 4, 3, 2, 1, 0] : List Nat).foldl (bp_bit i) zv)
    (List.replicate BLOCK_SIZE_BYTES 0, block_y)).1

/-- block_product with its length guard. -/
def block_product (block_x block_y : List Nat) : Except PyErr (List Nat) :=
  if block_x.length ≠ BLOCK_SIZE_BYTES ∨ block_y.length ≠ BLOCK_SIZE_BYTES then
    .error (.valueError "Length of blocks need to be 16 bytes")
  else .ok (block_product_core block_x block_y)

/-- The ghash accumulation loop over 16-byte slices. Fuel as in
aes_ctr_blocks_go. -/
def ghash_loop_go : Nat → List Nat → List Nat → List Nat → Except PyErr (List Nat)
  | 0, _, _, last_y => .ok last_y
  | fuel + 1, subkey, data, last_y =>
    if data.length = 0 then .ok last_y
    else
      match block_product (xor last_y (data.take BLOCK_SIZE_BYTES)) subkey with
      | .error e => .error e
      | .ok y => ghash_loop_go fuel subkey (data.drop BLOCK_SIZE_BYTES) y

def ghash_loop (subkey : List Nat) (data : List Nat) (last_y : List Nat) :
    Except PyErr (List Nat) :=
  ghash_loop_go data.length subkey data last_y

/-- ghash with its length guard. -/
def ghash (subkey data : List Nat) : Except PyErr (List Nat) :=
  if data.length % BLOCK_SIZE_BYTES ≠ 0 then
    .error (.valueError "Length of data should be 16 bytes")
  else ghash_loop subkey data (List.replicate BLOCK_SIZE_BYTES 0)

/-- n.to_bytes(length, big): big-endian bytes. The Python call raises
OverflowError when n does not fit; the GCM code only converts bit lengths,
which fit for any realistic buffer, and the embedding reduces mod 256. -/
def to_bytes (n length : Nat) : List Nat :=
  (List.range length).map (fun i => (n >>> (8 * (length - 1 - i))) % 256)

/-- The GCM hash subkey: AES encryption of the zero block under the key. -/
def hash_subkey_of (key : List Nat) : List Nat :=
  aes_encrypt (List.replicate BLOCK_SIZE_BYTES 0) (key_expansion key)

/-- The initial-counter computation of aes_gcm_decrypt_and_verify: a 12-byte
nonce is extended with [0,0,0,1]; any other length is hashed, with fill =
(16 - len % 16) % 16 + 8 zero bytes followed by the 8-byte big-endian bit
length. -/
def gcm_j0 (hash_subkey nonce : List Nat) : Except PyErr (List Nat) :=
  if nonce.length = 12 then .ok (nonce ++ [0, 0, 0, 1])
  else
    let fill := (BLOCK_SIZE_BYTES - nonce.length % BLOCK_SIZE_BYTES) % BLOCK_SIZE_BYTES + 8
    ghash hash_subkey (nonce ++ List.replicate fill 0 ++ to_bytes (8 * nonce.length) 8)

/-- aes_gcm_decrypt_and_verify: CTR-decrypt under inc(j0), recompute the tag
from ghash of the padded ciphertext and the length block, and compare. -/
def aes_gcm_decrypt_and_verify (data key tag nonce : List Nat) : Except PyErr (List Nat) :=
  match gcm_j0 (hash_subkey_of key) nonce with
  | .error e => .error e
  | .ok j0 =>
    let iv_ctr := inc j0
    let decrypted_data :=
      aes_ctr_decrypt data key (iv_ctr ++ List.replicate (BLOCK_SIZE_BYTES - iv_ctr.length) 0)
    let pad_len := (BLOCK_SIZE_BYTES - data.length % BLOCK_SIZE_BYTES) % BLOCK_SIZE_BYTES
    match ghash (hash_subkey_of key)
        (data ++ List.replicate pad_len 0 ++ (to_bytes 0 8 ++ to_bytes (8 * data.length) 8)) with
    | .error e => .error e
    | .ok s_tag =>
      if tag ≠ aes_ctr_encrypt s_tag key j0 then
        .error (.valueError "Mismatching authentication tag")
      else .ok decrypted_data

/-! Spec-model and proof-support definitions. -/

/-- Bytes predicate: every element is below 256. -/
def allB (l : List Nat) : Prop := ∀ x ∈ l, x < 256

instance : DecidablePred allB := fun l => List.decidableBAll _ l

/-- gmul with the two lookup tables re-encoded as single big naturals (entry i
is the byte at offset 8*i); proved pointwise equal to gmul on bytes below. -/
def gmulN (x r : Nat) : Nat :=
  if x = 0 ∨ r = 0 then 0
  else (EXPN >>> (8 * ((((LOGN >>> (8 * x)) &&& 255) + ((LOGN >>> (8 * r)) &&& 255)) % 255))) &&& 255

/-- The zero block. -/
def z16 : List Nat := List.replicate 16 0

/-- Fold of xor over a list of blocks. -/
def bigXorL (ls : List (List Nat)) : List Nat := ls.foldr (fun a acc => xor a acc) z16

/-- Gate a block by a bit value. -/
def sel (b : Nat) (v : List Nat) : List Nat := if b ≠ 0 then v else z16

/-- The xor of sel b_k (vstep^[k] v) over a bit list: the value block_z
accumulates when the bits are the data bits of block_x. -/
def bpSum : List Nat → List Nat → List Nat
  | [], _ => z16
  | b :: rest, v => xor (sel b v) (bpSum rest (vstep v))

/-- Most-significant-bit-first bit list of a byte list, with bits as 0/1
naturals, testing i &&& (1 <<< bit) exactly as block_product does. -/
def toBits (x : List Nat) : List Nat :=
  (x.map (fun i =>
    ([7, 6, 5, 4, 3, 2, 1, 0] : List Nat).map (fun bit => if i &&& (1 <<< bit) ≠ 0 then 1 else 0))).flatten

/-- Modelled from the spec: the padding the spec describes for the GCM J0
derivation, the nonce zero-padded to a multiple of 16 bytes. -/
def padTo16 (l : List Nat) : List Nat :=
  l ++ List.replicate ((BLOCK_SIZE_BYTES - l.length % BLOCK_SIZE_BYTES) % BLOCK_SIZE_BYTES) 0

/-- Modelled from the spec: the J0 formula claim C4 states for nonces that are
not 12 bytes, GHASH of the padded nonce followed directly by the 8-byte
big-endian bit length (the source inserts 8 further zero bytes first). -/
def j0_claim (hash_subkey nonce : List Nat) : Except PyErr (List Nat) :=
  ghash hash_subkey (padTo16 nonce ++ to_bytes (8 * nonce.length) 8)

/-- The J0 formula amended to what the source computes: padded nonce, then an
8-byte zero block, then the 8-byte big-endian bit length. -/
def j0_amended (hash_subkey nonce : List Nat) : Except PyErr (List Nat) :=
  ghash hash_subkey (padTo16 nonce ++ List.replicate 8 0 ++ to_bytes (8 * nonce.length) 8)

/-- Modelled from the spec: a result that fails with the distinct
authentication error kind the spec demands. No code path produces it. -/
def isAuthError (r : Except PyErr (List Nat)) : Prop :=
  ∃ m, r = Except.error (PyErr.authenticationError m)

/-- The xor of t i over the bits i set in the byte x (most general form used
to reduce xor-linearity of table lookups to 256 decidable cases). -/
def bitXorFold (t : Nat → Nat) (x : Nat) : Nat :=
  ([0, 1, 2, 3, 4, 5, 6, 7] : List Nat).foldr
    (fun i acc => (if x &&& (1 <<< i) ≠ 0 then t i else 0) ^^^ acc) 0

/-- The k-th basis block: a 16-byte block whose only set bit is bit k in the
MSB-first bit reading block_product uses. -/
def ebasis (k : Nat) : List Nat :=
  (List.range 16).map (fun i => if i = k / 8 then 1 <<< (7 - k % 8) else 0)

/-! Basic list and xor lemmas. -/

theorem xor_length (a b : List Nat) : (xor a b).length = min a.length b.length := by
  simp [xor]

theorem xor_nil_right (a : List Nat) : xor a [] = [] := by
  simp [xor]

theorem xor_xor_cancel : ∀ (a b : List Nat), a.length ≤ b.length → xor (xor a b) b = a
  | [], _, _ => by simp [xor]
  | x :: a, [], h => by simp at h
  | x :: a, y :: b, h => by
    simp only [xor, List.zipWith_cons_cons, List.cons.injEq]
    refine ⟨Nat.xor_cancel_right _ _, ?_⟩
    exact xor_xor_cancel a b (by simpa using h)

theorem xor_append_left : ∀ (a b c : List Nat), a.length = b.length →
    xor (a ++ c) b = xor a b
  | [], [], c, _ => by simp [xor]
  | [], _ :: _, _, h => by simp at h
  | _ :: _, [], _, h => by simp at h
  | x :: a, y :: b, c, h => by
    simp only [xor, List.cons_append, List.zipWith_cons_cons, List.cons.injEq, true_and]
    exact xor_append_left a b c (by simpa using h)

theorem getD_lt : ∀ (l : List Nat), (∀ x ∈ l, x < 256) → ∀ (n : Nat), l.getD n 0 < 256
  | [], _, n => by simp
  | x :: l, h, 0 => by simpa using h x (by simp)
  | x :: l, h, n + 1 => by
    simpa using getD_lt l (fun y hy => h y (by simp [hy])) n

theorem xor_lt_256 {a b : Nat} (ha : a < 256) (hb : b < 256) : a ^^^ b < 256 :=
  Nat.xor_lt_two_pow (n := 8) ha hb

theorem xor3_lt_256 {a b c : Nat} (ha : a < 256) (hb : b < 256) (hc : c < 256) :
    (a ^^^ b) ^^^ c < 256 := xor_lt_256 (xor_lt_256 ha hb) hc

theorem allB_xor : ∀ {a b : List Nat}, allB a → allB b → allB (xor a b)
  | [], _, _, _ => by intro x hx; simp [xor] at hx
  | _ :: _, [], _, _ => by intro x hx; simp [xor] at hx
  | x :: a, y :: b, ha, hb => by
    intro z hz
    simp only [xor, List.zipWith_cons_cons, List.mem_cons] at hz
    rcases hz with rfl | hz
    · exact xor_lt_256 (ha x (by simp)) (hb y (by simp))
    · exact allB_xor (fun u hu => ha u (by simp [hu])) (fun u hu => hb u (by simp [hu])) z hz

theorem allB_take {l : List Nat} (h : allB l) (n : Nat) : allB (l.take n) :=
  fun x hx => h x (List.mem_of_mem_take hx)

theorem allB_drop {l : List Nat} (h : allB l) (n : Nat) : allB (l.drop n) :=
  fun x hx => h x (List.mem_of_mem_drop hx)

theorem allB_append {a b : List Nat} (ha : allB a) (hb : allB b) : allB (a ++ b) := by
  intro x hx
  rcases List.mem_append.mp hx with h | h
  · exact ha x h
  · exact hb x h

theorem allB_replicate_zero (n : Nat) : allB (List.replicate n 0) := by
  intro x hx
  simp [List.eq_of_mem_replicate hx]

/-! Table facts. -/

theorem SBOX_allB : allB SBOX := by decide

theorem SBOX_INV_allB : allB SBOX_INV := by decide

theorem RCON_allB : allB RCON := by decide

theorem EXP_allB : allB RIJNDAEL_EXP_TABLE := by decide

theorem sbox_inv_sbox : ∀ x, x < 256 → SBOX_INV.getD (SBOX.getD x 0) 0 = x := by decide

/-! Length and byte-bound lemmas for the key schedule. -/

theorem rotate_length (l : List Nat) : (rotate l).length = l.length := by
  cases l <;> simp [rotate]

theorem sub_bytes_length (l : List Nat) : (sub_bytes l).length = l.length := by
  simp [sub_bytes]

theorem allB_sub_bytes (l : List Nat) : allB (sub_bytes l) := by
  intro x hx
  simp only [sub_bytes, List.mem_map] at hx
  obtain ⟨y, _, rfl⟩ := hx
  exact getD_lt SBOX SBOX_allB y

theorem allB_sub_bytes_inv (l : List Nat) : allB (sub_bytes_inv l) := by
  intro x hx
  simp only [sub_bytes_inv, List.mem_map] at hx
  obtain ⟨y, _, rfl⟩ := hx
  exact getD_lt SBOX_INV SBOX_INV_allB y

theorem allB_rotate {l : List Nat} (h : allB l) : allB (rotate l) := by
  cases l with
  | nil => exact h
  | cons x rest =>
    intro y hy
    apply h
    simp only [rotate, List.mem_append, List.mem_singleton] at hy
    rcases hy with hy | rfl
    · exact List.mem_cons_of_mem _ hy
    · exact List.mem_cons_self _ _

theorem key_schedule_core_length (data : List Nat) (r : Nat) :
    (key_schedule_core data r).length = data.length := by
  unfold key_schedule_core
  rcases h : sub_bytes (rotate data) with _ | ⟨x, rest⟩
  · have := sub_bytes_length (rotate data)
    rw [h] at this
    simp [← rotate_length data, ← this]
  · have := sub_bytes_length (rotate data)
    rw [h] at this
    simp [← rotate_length data, ← this]

theorem allB_key_schedule_core {data : List Nat} (h : allB data) (r : Nat) :
    allB (key_schedule_core data r) := by
  unfold key_schedule_core
  rcases hs : sub_bytes (rotate data) with _ | ⟨x, rest⟩
  · intro y hy; simp at hy
  · have hall : allB (x :: rest) := hs ▸ allB_sub_bytes (rotate data)
    intro y hy
    rcases List.mem_cons.mp hy with rfl | hy
    · exact xor_lt_256 (hall x (by simp)) (getD_lt RCON RCON_allB r)
    · exact hall y (by simp [hy])

theorem last_n_length {l : List Nat} {n : Nat} (h : n ≤ l.length) :
    (last_n n l).length = n := by
  simp [last_n]
  omega

theorem allB_last_n {l : List Nat} (h : allB l) (n : Nat) : allB (last_n n l) :=
  allB_drop h _

theorem back_slice_length {ks : Nat} {l : List Nat} (h4 : 4 ≤ ks) (h : ks ≤ l.length) :
    (back_slice ks l).length = 4 := by
  simp [back_slice]
  omega

theorem allB_back_slice {ks : Nat} {l : List Nat} (h : allB l) : allB (back_slice ks l) :=
  allB_drop (allB_take h _) _

theorem ks_step_length {ks : Nat} {w data : List Nat} (h4 : 4 ≤ ks)
    (hk : ks ≤ data.length) (hw : w.length = 4) :
    (ks_step ks w data).length = data.length + 4 := by
  simp [ks_step, xor_length, hw, back_slice_length h4 hk]

theorem allB_ks_step (ks : Nat) {w data : List Nat} (hw : allB w) (hd : allB data) :
    allB (ks_step ks w data) :=
  allB_append hd (allB_xor hw (allB_back_slice hd))

theorem ks_plain_length {ks : Nat} {data : List Nat} (h4 : 4 ≤ ks) (hk : ks ≤ data.length) :
    (ks_plain ks data).length = data.length + 4 :=
  ks_step_length h4 hk (last_n_length (by omega))

theorem allB_ks_plain (ks : Nat) {data : List Nat} (hd : allB data) : allB (ks_plain ks data) :=
  allB_ks_step ks (allB_last_n hd 4) hd

theorem key_exp_iter_16 (r : Nat) (data : List Nat) :
    key_exp_iter 16 r data =
      ks_plain 16 (ks_plain 16 (ks_plain 16
        (ks_step 16 (key_schedule_core (last_n 4 data) r) data))) := rfl

theorem key_exp_iter_24 (r : Nat) (data : List Nat) :
    key_exp_iter 24 r data =
      ks_plain 24 (ks_plain 24 (ks_plain 24 (ks_plain 24 (ks_plain 24
        (ks_step 24 (key_schedule_core (last_n 4 data) r) data))))) := rfl

theorem key_exp_iter_32 (r : Nat) (data : List Nat) :
    key_exp_iter 32 r data =
      (fun d2 => ks_plain 32 (ks_plain 32 (ks_plain 32
          (ks_step 32 (sub_bytes (last_n 4 d2)) d2))))
        (ks_plain 32 (ks_plain 32 (ks_plain 32
          (ks_step 32 (key_schedule_core (last_n 4 data) r) data)))) := rfl

theorem ks_plain_chain3 {ks : Nat} (h4 : 4 ≤ ks) {d : List Nat} (hk : ks ≤ d.length) :
    (ks_plain ks (ks_plain ks (ks_plain ks d))).length = d.length + 12 := by
  have l1 := ks_plain_length h4 hk
  have l2 := ks_plain_length h4 (show ks ≤ (ks_plain ks d).length by omega)
  have l3 := ks_plain_length h4
    (show ks ≤ (ks_plain ks (ks_plain ks d)).length by omega)
  omega

theorem key_exp_iter_length {ks : Nat} {data : List Nat}
    (hks : ks = 16 ∨ ks = 24 ∨ ks = 32) (hk : ks ≤ data.length) (r : Nat) :
    (key_exp_iter ks r data).length = data.length + ks := by
  have hcore : (key_schedule_core (last_n 4 data) r).length = 4 := by
    rw [key_schedule_core_length, last_n_length (by omega)]
  rcases hks with rfl | rfl | rfl
  · rw [key_exp_iter_16]
    have l1 : (ks_step 16 (key_schedule_core (last_n 4 data) r) data).length
        = data.length + 4 := ks_step_length (by omega) hk hcore
    have l2 := @ks_plain_chain3 16 (by omega)
      (ks_step 16 (key_schedule_core (last_n 4 data) r) data) (by omega)
    omega
  · rw [key_exp_iter_24]
    have l1 : (ks_step 24 (key_schedule_core (last_n 4 data) r) data).length
        = data.length + 4 := ks_step_length (by omega) hk hcore
    have l2 := @ks_plain_chain3 24 (by omega)
      (ks_step 24 (key_schedule_core (last_n 4 data) r) data) (by omega)
    have l3 := @ks_plain_length 24
      (ks_plain 24 (ks_plain 24 (ks_plain 24
        (ks_step 24 (key_schedule_core (last_n 4 data) r) data)))) (by omega) (by omega)
    have l4 := @ks_plain_length 24
      (ks_plain 24 (ks_plain 24 (ks_plain 24 (ks_plain 24
        (ks_step 24 (key_schedule_core (last_n 4 data) r) data))))) (by omega) (by omega)
    omega
  · rw [key_exp_iter_32]
    have l1 : (ks_step 32 (key_schedule_core (last_n 4 data) r) data).length
        = data.length + 4 := ks_step_length (by omega) hk hcore
    have l2 := @ks_plain_chain3 32 (by omega)
      (ks_step 32 (key_schedule_core (last_n 4 data) r) data) (by omega)
    set d2 := ks_plain 32 (ks_plain 32 (ks_plain 32
      (ks_step 32 (key_schedule_core (last_n 4 data) r) data))) with hd2
    have hsub : (sub_bytes (last_n 4 d2)).length = 4 := by
      rw [sub_bytes_length, last_n_length (by omega)]
    have l3 : (ks_step 32 (sub_bytes (last_n 4 d2)) d2).length = d2.length + 4 :=
      ks_step_length (by omega) (by omega) hsub
    have l4 := @ks_plain_chain3 32 (by omega)
      (ks_step 32 (sub_bytes (last_n 4 d2)) d2) (by omega)
    simpa using by omega

theorem allB_key_exp_iter {ks : Nat} {data : List Nat} (hd : allB data) (r : Nat) :
    allB (key_exp_iter ks r data) := by
  unfold key_exp_iter
  have h1 : allB (ks_step ks (key_schedule_core (last_n 4 data) r) data) :=
    allB_ks_step ks (allB_key_schedule_core (allB_last_n hd 4) r) hd
  have h2 := allB_ks_plain ks (allB_ks_plain ks (allB_ks_plain ks h1))
  by_cases h32 : ks = 32
  · simp only [h32, reduceIte]
    simp only [h32] at h2
    have h3 := allB_ks_step 32
      (allB_sub_bytes (last_n 4 (ks_plain 32 (ks_plain 32 (ks_plain 32
        (ks_step 32 (key_schedule_core (last_n 4 data) r) data)))))) h2
    exact allB_ks_plain 32 (allB_ks_plain 32 (allB_ks_plain 32 h3))
  · simp only [h32, reduceIte]
    by_cases h24 : ks = 24
    · simp only [h24, reduceIte]
      simp only [h24] at h2
      exact allB_ks_plain 24 (allB_ks_plain 24 h2)
    · simp only [h24, reduceIte]
      exact h2

theorem key_exp_loop_length {ks target : Nat} (hks : ks = 16 ∨ ks = 24 ∨ ks = 32) :
    ∀ (fuel r : Nat) (data : List Nat), ks ≤ data.length →
      target ≤ data.length + fuel * ks →
      target ≤ (key_exp_loop fuel ks target r data).length := by
  intro fuel
  induction fuel with
  | zero => intro r data _ hfits; simp only [key_exp_loop]; omega
  | succ n ih =>
    intro r data hk hfits
    rw [key_exp_loop]
    by_cases hlt : data.length < target
    · simp only [hlt, reduceIte]
      have hlen := key_exp_iter_length hks hk r
      exact ih (r + 1) _ (by omega)
        (by rw [hlen]; rw [Nat.succ_mul] at hfits; omega)
    · simp only [hlt, reduceIte]
      omega

theorem allB_key_exp_loop {ks target : Nat} :
    ∀ (fuel r : Nat) (data : List Nat), allB data →
      allB (key_exp_loop fuel ks target r data) := by
  intro fuel
  induction fuel with
  | zero => intro r data hd; simpa [key_exp_loop] using hd
  | succ n ih =>
    intro r data hd
    rw [key_exp_loop]
    by_cases hlt : data.length < target
    · simp only [hlt, reduceIte]
      exact ih (r + 1) _ (allB_key_exp_iter hd r)
    · simp only [hlt, reduceIte]
      exact hd

/-- The expanded key of a 16/24/32-byte key has exactly (ks/4 + 7) * 16
bytes. -/
theorem key_expansion_length {key : List Nat}
    (hks : key.length = 16 ∨ key.length = 24 ∨ key.length = 32) :
    (key_expansion key).length = (key.length / 4 + 7) * 16 := by
  have htarget := @key_exp_loop_length key.length ((key.length / 4 + 7) * BLOCK_SIZE_BYTES)
    hks ((key.length / 4 + 7) * BLOCK_SIZE_BYTES) 1 key (by omega)
    (by
      have hpos : 0 < key.length := by rcases hks with h | h | h <;> omega
      have h1 : (key.length / 4 + 7) * BLOCK_SIZE_BYTES ≤
          (key.length / 4 + 7) * BLOCK_SIZE_BYTES * key.length :=
        Nat.le_mul_of_pos_right _ hpos
      omega)
  simp only [key_expansion, List.length_take, BLOCK_SIZE_BYTES] at htarget ⊢
  omega

theorem allB_key_expansion {key : List Nat} (hk : allB key) : allB (key_expansion key) :=
  allB_take (allB_key_exp_loop _ _ _ hk) _

/-! inc lemmas. -/

theorem incRev_all255 : ∀ (s : List Nat), (∀ y ∈ s, y = 255) →
    incRev s = List.replicate s.length 0
  | [], _ => rfl
  | x :: s, h => by
    have hx : x = 255 := h x (by simp)
    simp only [incRev, hx, reduceIte, List.length_cons, List.replicate_succ, List.cons.injEq,
      true_and]
    exact incRev_all255 s (fun y hy => h y (by simp [hy]))

theorem incRev_break : ∀ (s : List Nat) (x : Nat) (p : List Nat),
    (∀ y ∈ s, y = 255) → x ≠ 255 →
    incRev (s ++ x :: p) = List.replicate s.length 0 ++ (x + 1) :: p
  | [], x, p, _, hx => by simp [incRev, hx]
  | y :: s, x, p, h, hx => by
    have hy : y = 255 := h y (by simp)
    simp only [List.cons_append, incRev, hy, reduceIte, List.length_cons, List.replicate_succ,
      List.cons_append, List.cons.injEq, true_and]
    exact incRev_break s x p (fun z hz => h z (by simp [hz])) hx

theorem inc_all255 (data : List Nat) (h : ∀ y ∈ data, y = 255) :
    inc data = List.replicate data.length 0 := by
  unfold inc
  rw [incRev_all255 data.reverse (fun y hy => h y (List.mem_reverse.mp hy))]
  simp

theorem inc_break (p : List Nat) (x : Nat) (s : List Nat) (hx : x ≠ 255)
    (hs : ∀ y ∈ s, y = 255) :
    inc (p ++ x :: s) = p ++ (x + 1) :: List.replicate s.length 0 := by
  unfold inc
  have hrev : (p ++ x :: s).reverse = s.reverse ++ x :: p.reverse := by
    simp
  rw [hrev, incRev_break s.reverse x p.reverse
    (fun y hy => hs y (List.mem_reverse.mp hy)) hx]
  simp

/-! unpad lemma. -/

theorem unpad_concat (p : List Nat) (n : Nat) :
    unpad_pkcs7 (p ++ [n]) = if n = 0 then [] else (p ++ [n]).take (p.length + 1 - n) := by
  unfold unpad_pkcs7 compat_ord
  rw [List.getLastD_concat]
  by_cases h : n = 0
  · simp [h]
  · simp [h]

/-!
## Claims

One theorem per claim of the frozen claim list, each preceded by the claim it
settles. Counterexamples are closed statements falsifying a claim exactly as
stated; amended claims change no more than the counterexample forces.
-/

/-- Claim C2: on the FIPS-197 AES-128 test vector, aes_encrypt of plaintext
00112233445566778899aabbccddeeff under key_expansion of key
000102030405060708090a0b0c0d0e0f yields 69c4e0d86a7b0430d8cdb78070b4c55a. -/
theorem claim_C2 :
    aes_encrypt
      [0x00, 0x11, 0x22, 0x33, 0x44, 0x55, 0x66, 0x77, 0x88, 0x99, 0xAA, 0xBB, 0xCC, 0xDD, 0xEE, 0xFF]
      (key_expansion
        [0x00, 0x01, 0x02, 0x03, 0x04, 0x05, 0x06, 0x07, 0x08, 0x09, 0x0A, 0x0B, 0x0C, 0x0D, 0x0E, 0x0F]) =
      [0x69, 0xC4, 0xE0, 0xD8, 0x6A, 0x7B, 0x04, 0x30, 0xD8, 0xCD, 0xB7, 0x80, 0x70, 0xB4, 0xC5, 0x5A] := by
  decide

/-- Claim C6: inc scans from the final byte backward, wraps each 255 to 0 with
a carry, increments the first byte that is not 255 and leaves the earlier
bytes unchanged; when every byte is 255 the counter wraps to all zeros. In
particular inc [0,...,0,255] = [0,...,0,1,0] and inc of the all-255 counter is
the zero counter. -/
theorem claim_C6 :
    (∀ (p : List Nat) (x : Nat) (s : List Nat), x ≠ 255 → (∀ y ∈ s, y = 255) →
      inc (p ++ x :: s) = p ++ (x + 1) :: List.replicate s.length 0) ∧
    (∀ data : List Nat, (∀ y ∈ data, y = 255) → inc data = List.replicate data.length 0) ∧
    inc (List.replicate 15 0 ++ [255]) = List.replicate 14 0 ++ [1, 0] ∧
    inc (List.replicate 16 255) = List.replicate 16 0 :=
  ⟨inc_break, inc_all255, by decide, by decide⟩

/-- Witness for claim C6 at a concrete input with both hypotheses
discharged. -/
theorem claim_C6_witness :
    (7 ≠ 255) ∧ (∀ y ∈ [255, 255], y = 255) ∧
    inc ([5] ++ 7 :: [255, 255]) = [5] ++ 8 :: List.replicate 2 0 :=
  ⟨by decide, by decide, claim_C6.1 [5] 7 [255, 255] (by decide) (by decide)⟩

/-- Claim C7 counterexample: [1, 2, 0] is nonempty with trailing byte 0, so
the claim says unpad_pkcs7 drops zero bytes and returns it unchanged; the code
evaluates data[:-0] = data[:0] and returns the empty list. -/
theorem claim_C7_cex :
    unpad_pkcs7 [1, 2, 0] = [] ∧ unpad_pkcs7 [1, 2, 0] ≠ [1, 2, 0] := by
  exact ⟨by decide, by decide⟩

/-- Claim C7 amended: for a nonempty list with trailing byte N, unpad_pkcs7
blindly drops the last N bytes (clamped to the whole list) when N is at least
1, with no check of the padding bytes; when N = 0 the Python slice data[:-0]
is data[:0], so the empty list is returned, not the data unchanged. -/
theorem claim_C7 (p : List Nat) (n : Nat) :
    unpad_pkcs7 (p ++ [n]) = if n = 0 then [] else (p ++ [n]).take (p.length + 1 - n) :=
  unpad_concat p n

/-- Claim C8: key_expansion returns exactly (keyLength / 4 + 7) * 16 bytes for
keys of length 16, 24 or 32, hence 176, 208 and 240 bytes respectively, and is
a pure function of the key. -/
theorem claim_C8 (key : List Nat)
    (hks : key.length = 16 ∨ key.length = 24 ∨ key.length = 32) :
    (key_expansion key).length = (key.length / 4 + 7) * 16 ∧
    (key.length = 16 → (key_expansion key).length = 176) ∧
    (key.length = 24 → (key_expansion key).length = 208) ∧
    (key.length = 32 → (key_expansion key).length = 240) := by
  have h := key_expansion_length hks
  exact ⟨h, fun he => by rw [h, he], fun he => by rw [h, he], fun he => by rw [h, he]⟩

/-- Witness for claim C8 on the all-zero 16-byte key. -/
theorem claim_C8_witness :
    (List.replicate 16 0).length = 16 ∧ (key_expansion (List.replicate 16 0)).length = 176 :=
  ⟨by decide, (claim_C8 (List.replicate 16 0) (Or.inl (by decide))).2.1 (by decide)⟩

/-! Block transform length lemmas. -/

theorem shift_rows_length (data : List Nat) : (shift_rows data).length = 16 := rfl

theorem shift_rows_inv_length (data : List Nat) : (shift_rows_inv data).length = 16 := rfl

theorem iter_mix_columns_length (data : List Nat) (m : List (List Nat))
    (hm : m.length = 4) : (iter_mix_columns data m).length = 16 := by
  simp [iter_mix_columns, mix_column, hm]

theorem keypart_length {expanded_key : List Nat} {i : Nat}
    (h : (i + 1) * 16 ≤ expanded_key.length) : (keypart expanded_key i).length = 16 := by
  simp [keypart, BLOCK_SIZE_BYTES]
  omega

theorem enc_round_length {expanded_key : List Nat} {i : Nat} (rounds : Nat)
    (h : (i + 1) * 16 ≤ expanded_key.length) (d : List Nat) :
    (enc_round expanded_key rounds d i).length = 16 := by
  unfold enc_round
  rw [xor_length, keypart_length h]
  by_cases hi : i ≠ rounds
  · simp [hi, iter_mix_columns_length _ MIX_COLUMN_MATRIX rfl]
  · simp [hi, shift_rows_length]

theorem foldl_enc_round_length {expanded_key : List Nat} (rounds : Nat) :
    ∀ (l : List Nat), l ≠ [] → (∀ i ∈ l, (i + 1) * 16 ≤ expanded_key.length) →
      ∀ s, (l.foldl (enc_round expanded_key rounds) s).length = 16 := by
  intro l
  induction l with
  | nil => intro h; exact absurd rfl h
  | cons i t ih =>
    intro _ hmem s
    simp only [List.foldl_cons]
    cases t with
    | nil => simpa using enc_round_length rounds (hmem i (by simp)) s
    | cons j u =>
      exact ih (by simp) (fun k hk => hmem k (by simp [List.mem_cons] at hk ⊢; tauto)) _

/-- With a well-formed expanded key of 16 * (R + 1) bytes, R ≥ 1, aes_encrypt
always returns 16 bytes (shift_rows and iter_mix_columns force the state to 16
bytes whatever the input length). -/
theorem aes_encrypt_length {expanded_key : List Nat} {R : Nat}
    (hek : expanded_key.length = 16 * (R + 1)) (hR : 1 ≤ R) (data : List Nat) :
    (aes_encrypt data expanded_key).length = 16 := by
  unfold aes_encrypt
  have hrounds : expanded_key.length / BLOCK_SIZE_BYTES - 1 = R := by
    simp only [BLOCK_SIZE_BYTES]
    omega
  rw [hrounds]
  apply foldl_enc_round_length
  · intro h
    have := congrArg List.length h
    simp at this
    omega
  · intro i hi
    rw [List.mem_range'_1] at hi
    omega

/-! CTR mode lemmas. -/

theorem take_xor (a b : List Nat) (n : Nat) :
    (xor a b).take n = xor (a.take n) (b.take n) := List.take_zipWith ..

theorem ctr_blocks_go_nil : ∀ (f : Nat) (ek c : List Nat),
    aes_ctr_blocks_go f ek [] c = []
  | 0, _, _ => rfl
  | _ + 1, _, _ => rfl

theorem ctr_blocks_go_fuel : ∀ (f1 f2 : Nat) (ek data c : List Nat),
    data.length ≤ f1 → data.length ≤ f2 →
    aes_ctr_blocks_go f1 ek data c = aes_ctr_blocks_go f2 ek data c := by
  intro f1
  induction f1 with
  | zero =>
    intro f2 ek data c h1 _
    have h0 : data = [] := List.length_eq_zero.mp (by omega)
    subst h0
    rw [ctr_blocks_go_nil, ctr_blocks_go_nil]
  | succ n ih =>
    intro f2 ek data c h1 h2
    by_cases h0 : data.length = 0
    · have h0x : data = [] := List.length_eq_zero.mp h0
      subst h0x
      rw [ctr_blocks_go_nil, ctr_blocks_go_nil]
    · cases f2 with
      | zero => omega
      | succ m =>
        show (if data.length = 0 then [] else _) = (if data.length = 0 then [] else _)
        rw [if_neg h0, if_neg h0]
        have := ih m ek (data.drop BLOCK_SIZE_BYTES) (inc c)
          (by simp [BLOCK_SIZE_BYTES]; omega) (by simp [BLOCK_SIZE_BYTES]; omega)
        rw [this]

theorem ctr_blocks_nil (ek c : List Nat) : aes_ctr_blocks ek [] c = [] := rfl

theorem ctr_blocks_cons {data : List Nat} (ek c : List Nat) (h : data.length ≠ 0) :
    aes_ctr_blocks ek data c =
      xor (data.take 16 ++ List.replicate (16 - (data.take 16).length) 0) (aes_encrypt c ek)
        ++ aes_ctr_blocks ek (data.drop 16) (inc c) := by
  unfold aes_ctr_blocks
  rcases hlen : data.length with _ | n
  · omega
  · show (if data.length = 0 then [] else _) = _
    rw [if_neg h]
    simp only [BLOCK_SIZE_BYTES]
    congr 1
    exact ctr_blocks_go_fuel n (data.drop 16).length ek (data.drop 16) (inc c)
      (by simp; omega) (le_refl _)

theorem padded_block_length (data : List Nat) :
    (data.take 16 ++ List.replicate (16 - (data.take 16).length) 0).length = 16 := by
  rw [List.length_append, List.length_replicate, List.length_take]
  omega

theorem ctr_blocks_length_ge {ek : List Nat} {R : Nat}
    (hek : ek.length = 16 * (R + 1)) (hR : 1 ≤ R) :
    ∀ (n : Nat) (data c : List Nat), data.length ≤ n →
      data.length ≤ (aes_ctr_blocks ek data c).length := by
  intro n
  induction n with
  | zero => intro data c h; omega
  | succ n ih =>
    intro data c h
    by_cases h0 : data.length = 0
    · omega
    · rw [ctr_blocks_cons ek c h0]
      have hE : (xor (data.take 16 ++ List.replicate (16 - (data.take 16).length) 0)
          (aes_encrypt c ek)).length = 16 := by
        rw [xor_length, aes_encrypt_length hek hR, padded_block_length]
        omega
      have hrec := ih (data.drop 16) (inc c) (by simp; omega)
      simp only [List.length_append, hE]
      simp only [List.length_drop] at hrec
      omega

theorem ctr_blocks_cancel {ek : List Nat} {R : Nat}
    (hek : ek.length = 16 * (R + 1)) (hR : 1 ≤ R) :
    ∀ (n : Nat) (data c : List Nat), data.length ≤ n →
      (aes_ctr_blocks ek ((aes_ctr_blocks ek data c).take data.length) c).take data.length
        = data := by
  intro n
  induction n with
  | zero =>
    intro data c h
    have h0 : data = [] := List.length_eq_zero.mp (by omega)
    subst h0
    simp [ctr_blocks_nil]
  | succ n ih =>
    intro data c hle
    by_cases h0 : data.length = 0
    · have h0x : data = [] := List.length_eq_zero.mp h0
      subst h0x
      simp [ctr_blocks_nil]
    · rw [ctr_blocks_cons ek c h0]
      set P := data.take 16 ++ List.replicate (16 - (data.take 16).length) 0 with hP
      set K := aes_encrypt c ek with hK
      have hKlen : K.length = 16 := aes_encrypt_length hek hR c
      have hBlen : P.length = 16 := padded_block_length data
      set E := xor P K with hE
      have hElen : E.length = 16 := by rw [hE, xor_length, hKlen, hBlen]; omega
      set rest := aes_ctr_blocks ek (data.drop 16) (inc c) with hrest
      by_cases hge : 16 ≤ data.length
      · -- data is at least one full block
        have hEtake : E.take data.length = E := List.take_of_length_le (by omega)
        rw [List.take_append_eq_append_take, hEtake, hElen]
        set T := rest.take (data.length - 16) with hT
        have hne : (E ++ T).length ≠ 0 := by
          rw [List.length_append, hElen]
          omega
        rw [ctr_blocks_cons ek c hne]
        have htkE : E.take 16 = E := List.take_of_length_le (by omega)
        have htk : (E ++ T).take 16 = E := by
          rw [List.take_append_eq_append_take, htkE, hElen]
          simp
        rw [htk, hElen]
        simp only [Nat.sub_self, List.replicate_zero, List.append_nil]
        rw [hE, xor_xor_cancel P K (by omega)]
        have hdr : (E ++ T).drop 16 = T := by
          rw [List.drop_append_eq_append_drop, List.drop_eq_nil_of_le (by omega), hElen]
          simp
        rw [hdr]
        have h16 : (data.take 16).length = 16 := by
          rw [List.length_take]
          omega
        have hPfull : P = data.take 16 := by
          rw [hP, h16]
          simp
        rw [hPfull]
        rw [List.take_append_eq_append_take, List.take_of_length_le (by omega), h16]
        have h4 : (data.drop 16).length = data.length - 16 := by simp
        have hTih : T = (aes_ctr_blocks ek (data.drop 16) (inc c)).take (data.drop 16).length := by
          rw [hT, hrest, h4]
        rw [hTih, ← h4, ih (data.drop 16) (inc c) (by simp; omega)]
        exact List.take_append_drop 16 data
      · -- data is a short final block
        have hlt : data.length < 16 := by omega
        have hdrop : data.drop 16 = [] := List.drop_eq_nil_of_le (by omega)
        rw [hrest, hdrop, ctr_blocks_nil, List.append_nil]
        have hEtlen : (E.take data.length).length = data.length := by
          rw [List.length_take]
          omega
        rw [ctr_blocks_cons ek c (by rw [hEtlen]; omega)]
        have h5 : (E.take data.length).take 16 = E.take data.length := by
          rw [List.take_take, min_eq_right (by omega)]
        rw [h5, hEtlen]
        have h7 : (E.take data.length).drop 16 = [] :=
          List.drop_eq_nil_of_le (by rw [hEtlen]; omega)
        rw [h7, ctr_blocks_nil, List.append_nil]
        rw [take_xor]
        have h8 : (E.take data.length ++ List.replicate (16 - data.length) 0).take data.length
            = E.take data.length := by
          rw [List.take_append_eq_append_take, List.take_take, min_self, hEtlen]
          simp
        rw [h8]
        have h9 : E.take data.length = xor (P.take data.length) (K.take data.length) := by
          rw [hE, take_xor]
        rw [h9]
        rw [xor_xor_cancel _ _ (by rw [List.length_take, List.length_take]; omega)]
        have h10 : (data.take 16).length = data.length := by
          rw [List.length_take]
          omega
        rw [hP, List.take_append_eq_append_take, h10, Nat.sub_self]
        simp only [List.take_zero, List.append_nil, List.take_take]
        rw [min_eq_left (by omega)]
        exact List.take_of_length_le (by omega)

/-! ECB mode lemmas. -/

theorem ecb_blocks_go_nil : ∀ (f : Nat) (ek : List Nat), aes_ecb_blocks_go f ek [] = []
  | 0, _ => rfl
  | _ + 1, _ => rfl

theorem ecb_blocks_go_fuel : ∀ (f1 f2 : Nat) (ek data : List Nat),
    data.length ≤ f1 → data.length ≤ f2 →
    aes_ecb_blocks_go f1 ek data = aes_ecb_blocks_go f2 ek data := by
  intro f1
  induction f1 with
  | zero =>
    intro f2 ek data h1 _
    have h0 : data = [] := List.length_eq_zero.mp (by omega)
    subst h0
    rw [ecb_blocks_go_nil, ecb_blocks_go_nil]
  | succ n ih =>
    intro f2 ek data h1 h2
    by_cases h0 : data.length = 0
    · have h0x : data = [] := List.length_eq_zero.mp h0
      subst h0x
      rw [ecb_blocks_go_nil, ecb_blocks_go_nil]
    · cases f2 with
      | zero => omega
      | succ m =>
        show (if data.length = 0 then [] else _) = (if data.length = 0 then [] else _)
        rw [if_neg h0, if_neg h0]
        have := ih m ek (data.drop BLOCK_SIZE_BYTES)
          (by simp [BLOCK_SIZE_BYTES]; omega) (by simp [BLOCK_SIZE_BYTES]; omega)
        rw [this]

theorem ecb_blocks_nil (ek : List Nat) : aes_ecb_blocks ek [] = [] := rfl

theorem ecb_blocks_cons (ek : List Nat) {data : List Nat} (h : data.length ≠ 0) :
    aes_ecb_blocks ek data =
      aes_encrypt (pkcs7_padding (data.take 16)) ek ++ aes_ecb_blocks ek (data.drop 16) := by
  unfold aes_ecb_blocks
  rcases hlen : data.length with _ | n
  · omega
  · show (if data.length = 0 then [] else _) = _
    rw [if_neg h]
    simp only [BLOCK_SIZE_BYTES]
    congr 1
    exact ecb_blocks_go_fuel n (data.drop 16).length ek (data.drop 16)
      (by simp; omega) (le_refl _)

/-- The initial round-key xor truncates the state to 16 bytes with zip, so
appended bytes beyond a full 16-byte block never influence aes_encrypt. -/
theorem aes_encrypt_append_extra {b extra ek : List Nat} (hb : b.length = 16)
    (hek : 16 ≤ ek.length) :
    aes_encrypt (b ++ extra) ek = aes_encrypt b ek := by
  unfold aes_encrypt
  dsimp only
  congr 1
  exact xor_append_left b (ek.take BLOCK_SIZE_BYTES) extra
    (by rw [hb, List.length_take]; simp [BLOCK_SIZE_BYTES]; omega)

theorem pkcs7_full {b : List Nat} (hb : b.length = 16) :
    pkcs7_padding b = b ++ List.replicate 16 16 := by
  unfold pkcs7_padding
  rw [hb]
  simp [BLOCK_SIZE_BYTES]

theorem ecb_blocks_aligned {ek : List Nat} {R : Nat}
    (hek : ek.length = 16 * (R + 1)) (hR : 1 ≤ R) :
    ∀ (n : Nat) (data : List Nat), data.length ≤ n → data.length % 16 = 0 →
      (aes_ecb_blocks ek data).length = data.length ∧
      (∀ i, 16 * i < data.length →
        ((aes_ecb_blocks ek data).drop (16 * i)).take 16
          = aes_encrypt ((data.drop (16 * i)).take 16) ek) := by
  intro n
  induction n with
  | zero =>
    intro data h _
    have h0 : data = [] := List.length_eq_zero.mp (by omega)
    subst h0
    exact ⟨by simp [ecb_blocks_nil], fun i hi => by simp at hi⟩
  | succ n ih =>
    intro data h hal
    by_cases h0 : data.length = 0
    · have h0x : data = [] := List.length_eq_zero.mp h0
      subst h0x
      exact ⟨by simp [ecb_blocks_nil], fun i hi => by simp at hi⟩
    · have hge : 16 ≤ data.length := by omega
      rw [ecb_blocks_cons ek h0]
      have htk16 : (data.take 16).length = 16 := by
        rw [List.length_take]
        omega
      have henc : aes_encrypt (pkcs7_padding (data.take 16)) ek
          = aes_encrypt (data.take 16) ek := by
        rw [pkcs7_full htk16]
        exact aes_encrypt_append_extra htk16 (by omega)
      rw [henc]
      have hEl : (aes_encrypt (data.take 16) ek).length = 16 := aes_encrypt_length hek hR _
      have hrec := ih (data.drop 16) (by simp; omega) (by simp; omega)
      refine ⟨?_, ?_⟩
      · rw [List.length_append, hEl, hrec.1, List.length_drop]
        omega
      · intro i hi
        cases i with
        | zero =>
          simp only [Nat.mul_zero, List.drop_zero]
          rw [List.take_append_eq_append_take, List.take_of_length_le (by omega), hEl]
          simp
        | succ j =>
          have hidx : 16 * (j + 1) = 16 * j + 16 := by ring
          have hdropped : ((aes_encrypt (data.take 16) ek
                ++ aes_ecb_blocks ek (data.drop 16)).drop (16 * (j + 1)))
              = (aes_ecb_blocks ek (data.drop 16)).drop (16 * j) := by
            rw [List.drop_append_eq_append_drop,
              List.drop_eq_nil_of_le (by rw [hEl]; omega), hEl]
            simp only [List.nil_append]
            rw [show 16 * (j + 1) - 16 = 16 * j by omega]
          rw [hdropped]
          have h2 : (data.drop (16 * (j + 1))).take 16
              = ((data.drop 16).drop (16 * j)).take 16 := by
            rw [List.drop_drop]
            rw [show 16 + 16 * j = 16 * (j + 1) by omega]
          rw [h2]
          exact hrec.2 j (by simp; omega)

/-- Claim C5: for every message, valid key and 16-byte counter, CTR decryption
inverts CTR encryption and both preserve the input length exactly. -/
theorem claim_C5 (m key iv : List Nat)
    (hk : key.length = 16 ∨ key.length = 24 ∨ key.length = 32)
    (_hiv : iv.length = 16) :
    aes_ctr_decrypt (aes_ctr_encrypt m key iv) key iv = m ∧
    (aes_ctr_encrypt m key iv).length = m.length ∧
    (aes_ctr_decrypt m key iv).length = m.length := by
  obtain ⟨R, hR, hek⟩ : ∃ R, 1 ≤ R ∧ (key_expansion key).length = 16 * (R + 1) := by
    have h := key_expansion_length hk
    rcases hk with h16 | h24 | h32
    · exact ⟨10, by omega, by rw [h, h16]⟩
    · exact ⟨12, by omega, by rw [h, h24]⟩
    · exact ⟨14, by omega, by rw [h, h32]⟩
  have hlen : ∀ d : List Nat, (aes_ctr_encrypt d key iv).length = d.length := by
    intro d
    unfold aes_ctr_encrypt
    rw [List.length_take]
    have := ctr_blocks_length_ge hek hR d.length d iv (le_refl _)
    omega
  refine ⟨?_, hlen m, hlen m⟩
  unfold aes_ctr_decrypt aes_ctr_encrypt
  have hClen : ((aes_ctr_blocks (key_expansion key) m iv).take m.length).length
      = m.length := by
    rw [List.length_take]
    have := ctr_blocks_length_ge hek hR m.length m iv (le_refl _)
    omega
  rw [hClen]
  exact ctr_blocks_cancel hek hR m.length m iv (le_refl _)

/-- Witness for claim C5 on a 3-byte message under the zero key and zero
counter. -/
theorem claim_C5_witness :
    aes_ctr_decrypt (aes_ctr_encrypt [1, 2, 3] (List.replicate 16 0) (List.replicate 16 0))
      (List.replicate 16 0) (List.replicate 16 0) = [1, 2, 3] ∧
    (aes_ctr_encrypt [1, 2, 3] (List.replicate 16 0) (List.replicate 16 0)).length = 3 :=
  ⟨(claim_C5 [1, 2, 3] (List.replicate 16 0) (List.replicate 16 0)
      (Or.inl (by decide)) (by decide)).1,
   by
    have h := (claim_C5 [1, 2, 3] (List.replicate 16 0) (List.replicate 16 0)
      (Or.inl (by decide)) (by decide)).2.1
    simpa using h⟩

/-- Claim C10: on block-aligned input with a valid key, aes_ecb_encrypt
returns exactly the input length (the extra 16-byte pkcs7 block added to each
full block is truncated away by the zip in the initial round-key xor), and
output block i is aes_encrypt of raw input block i. -/
theorem claim_C10 (data key : List Nat)
    (hk : key.length = 16 ∨ key.length = 24 ∨ key.length = 32)
    (hal : data.length % 16 = 0) :
    (aes_ecb_encrypt data key).length = data.length ∧
    (∀ i, 16 * i < data.length →
      ((aes_ecb_encrypt data key).drop (16 * i)).take 16
        = aes_encrypt ((data.drop (16 * i)).take 16) (key_expansion key)) := by
  obtain ⟨R, hR, hek⟩ : ∃ R, 1 ≤ R ∧ (key_expansion key).length = 16 * (R + 1) := by
    have h := key_expansion_length hk
    rcases hk with h16 | h24 | h32
    · exact ⟨10, by omega, by rw [h, h16]⟩
    · exact ⟨12, by omega, by rw [h, h24]⟩
    · exact ⟨14, by omega, by rw [h, h32]⟩
  exact ecb_blocks_aligned hek hR data.length data (le_refl _) hal

/-- Witness for claim C10 on two aligned blocks under the zero key. -/
theorem claim_C10_witness :
    (aes_ecb_encrypt (List.replicate 32 7) (List.replicate 16 0)).length = 32 ∧
    ((aes_ecb_encrypt (List.replicate 32 7) (List.replicate 16 0)).drop 16).take 16
      = aes_encrypt (((List.replicate 32 7 : List Nat).drop 16).take 16)
          (key_expansion (List.replicate 16 0)) :=
  ⟨by
    have h := (claim_C10 (List.replicate 32 7) (List.replicate 16 0)
      (Or.inl (by decide)) (by decide)).1
    simpa using h,
   by
    have h := (claim_C10 (List.replicate 32 7) (List.replicate 16 0)
      (Or.inl (by decide)) (by decide)).2 1 (by decide)
    simpa using h⟩

/-! GCM lemmas: every ghash call made with a 16-byte subkey on block-aligned
data succeeds with a 16-byte result. -/

theorem shift_block_aux_length : ∀ (b : Nat) (l : List Nat),
    (shift_block_aux b l).length = l.length
  | _, [] => rfl
  | b, n :: rest => by
    simp only [shift_block_aux, List.length_cons]
    rw [shift_block_aux_length]

theorem shift_block_length (l : List Nat) : (shift_block l).length = l.length :=
  shift_block_aux_length 0 l

theorem vstep_length {v : List Nat} (h : v.length = 16) : (vstep v).length = 16 := by
  unfold vstep
  by_cases hx : v.getLastD 0 &&& 1 ≠ 0
  · rw [if_pos hx, xor_length, shift_block_length, h]
    simp [block_r]
  · rw [if_neg hx, shift_block_length, h]

theorem bp_bit_lengths {z v : List Nat} (i b : Nat) (hz : z.length = 16) (hv : v.length = 16) :
    (bp_bit i (z, v) b).1.length = 16 ∧ (bp_bit i (z, v) b).2.length = 16 := by
  unfold bp_bit
  refine ⟨?_, vstep_length hv⟩
  by_cases hc : i &&& (1 <<< b) ≠ 0
  · show (if i &&& (1 <<< b) ≠ 0 then xor z v else z).length = 16
    rw [if_pos hc, xor_length, hz, hv]
    omega
  · show (if i &&& (1 <<< b) ≠ 0 then xor z v else z).length = 16
    rw [if_neg hc]
    exact hz

theorem bp_bits_fold_lengths : ∀ (bits : List Nat) (i : Nat) (zv : List Nat × List Nat),
    zv.1.length = 16 → zv.2.length = 16 →
    (bits.foldl (bp_bit i) zv).1.length = 16 ∧ (bits.foldl (bp_bit i) zv).2.length = 16
  | [], _, _, hz, hv => ⟨hz, hv⟩
  | b :: bits, i, zv, hz, hv => by
    simp only [List.foldl_cons]
    have h := bp_bit_lengths i b hz hv
    exact bp_bits_fold_lengths bits i (bp_bit i zv b)
      (by simpa using h.1) (by simpa using h.2)

theorem bp_bytes_fold_lengths : ∀ (xs : List Nat) (zv : List Nat × List Nat),
    zv.1.length = 16 → zv.2.length = 16 →
    (xs.foldl (fun zv i => ([7, 6, 5, 4, 3, 2, 1, 0] : List Nat).foldl (bp_bit i) zv) zv).1.length
      = 16 ∧
    (xs.foldl (fun zv i => ([7, 6, 5, 4, 3, 2, 1, 0] : List Nat).foldl (bp_bit i) zv) zv).2.length
      = 16
  | [], _, hz, hv => ⟨hz, hv⟩
  | x :: xs, zv, hz, hv => by
    simp only [List.foldl_cons]
    have h := bp_bits_fold_lengths [7, 6, 5, 4, 3, 2, 1, 0] x zv hz hv
    exact bp_bytes_fold_lengths xs _ h.1 h.2

theorem block_product_core_length {x y : List Nat} (hy : y.length = 16) :
    (block_product_core x y).length = 16 := by
  unfold block_product_core
  exact (bp_bytes_fold_lengths x (List.replicate BLOCK_SIZE_BYTES 0, y)
    (by simp [BLOCK_SIZE_BYTES]) hy).1

theorem block_product_ok {x y : List Nat} (hx : x.length = 16) (hy : y.length = 16) :
    block_product x y = .ok (block_product_core x y) := by
  unfold block_product
  simp [hx, hy, BLOCK_SIZE_BYTES]

theorem ghash_loop_go_nil : ∀ (f : Nat) (subkey y : List Nat),
    ghash_loop_go f subkey [] y = .ok y
  | 0, _, _ => rfl
  | _ + 1, _, _ => rfl

theorem ghash_loop_go_fuel : ∀ (f1 f2 : Nat) (subkey data y : List Nat),
    data.length ≤ f1 → data.length ≤ f2 →
    ghash_loop_go f1 subkey data y = ghash_loop_go f2 subkey data y := by
  intro f1
  induction f1 with
  | zero =>
    intro f2 subkey data y h1 _
    have h0 : data = [] := List.length_eq_zero.mp (by omega)
    subst h0
    rw [ghash_loop_go_nil, ghash_loop_go_nil]
  | succ n ih =>
    intro f2 subkey data y h1 h2
    by_cases h0 : data.length = 0
    · have h0x : data = [] := List.length_eq_zero.mp h0
      subst h0x
      rw [ghash_loop_go_nil, ghash_loop_go_nil]
    · cases f2 with
      | zero => omega
      | succ m =>
        show (if data.length = 0 then _ else _) = (if data.length = 0 then _ else _)
        rw [if_neg h0, if_neg h0]
        rcases block_product (xor y (data.take BLOCK_SIZE_BYTES)) subkey with e | z
        · rfl
        · exact ih m subkey (data.drop BLOCK_SIZE_BYTES) z
            (by simp [BLOCK_SIZE_BYTES]; omega) (by simp [BLOCK_SIZE_BYTES]; omega)

theorem ghash_loop_nil (subkey y : List Nat) : ghash_loop subkey [] y = .ok y := rfl

theorem ghash_loop_cons {data : List Nat} (subkey y : List Nat) (h : data.length ≠ 0) :
    ghash_loop subkey data y =
      match block_product (xor y (data.take 16)) subkey with
      | .error e => .error e
      | .ok z => ghash_loop subkey (data.drop 16) z := by
  unfold ghash_loop
  rcases hlen : data.length with _ | n
  · omega
  · show (if data.length = 0 then _ else _) = _
    rw [if_neg h]
    simp only [BLOCK_SIZE_BYTES]
    rcases block_product (xor y (data.take 16)) subkey with e | z
    · rfl
    · exact ghash_loop_go_fuel n (data.drop 16).length subkey (data.drop 16) z
        (by simp; omega) (le_refl _)

theorem ghash_loop_ok {subkey : List Nat} (hs : subkey.length = 16) :
    ∀ (n : Nat) (data y : List Nat), data.length ≤ n → data.length % 16 = 0 →
      y.length = 16 →
      ∃ r, ghash_loop subkey data y = .ok r ∧ r.length = 16 := by
  intro n
  induction n with
  | zero =>
    intro data y h hal hy
    have h0 : data = [] := List.length_eq_zero.mp (by omega)
    subst h0
    exact ⟨y, ghash_loop_nil subkey y, hy⟩
  | succ n ih =>
    intro data y h hal hy
    by_cases h0 : data.length = 0
    · have h0x : data = [] := List.length_eq_zero.mp h0
      subst h0x
      exact ⟨y, ghash_loop_nil subkey y, hy⟩
    · have hge : 16 ≤ data.length := by omega
      have htk : (data.take 16).length = 16 := by
        rw [List.length_take]
        omega
      have hxorlen : (xor y (data.take 16)).length = 16 := by
        rw [xor_length, hy, htk]
        omega
      rw [ghash_loop_cons subkey y h0, block_product_ok hxorlen hs]
      exact ih (data.drop 16)
        (block_product_core (xor y (data.take 16)) subkey)
        (by simp; omega) (by simp; omega)
        (block_product_core_length hs)

theorem ghash_ok {subkey data : List Nat} (hs : subkey.length = 16)
    (hal : data.length % 16 = 0) :
    ∃ r, ghash subkey data = .ok r ∧ r.length = 16 := by
  unfold ghash
  simp only [BLOCK_SIZE_BYTES, hal, ne_eq, not_true_eq_false, reduceIte]
  exact ghash_loop_ok hs data.length data (List.replicate 16 0) (le_refl _) hal (by simp)

/-- Claim C4 counterexample: for the 16-byte all-zero nonce under the zero
key, the J0 the claim describes feeds GHASH a 24-byte input, which is not a
multiple of 16 and fails, while the code computes a J0 successfully (its GHASH
input carries 8 additional zero bytes the claim omits); the two results
differ. -/
theorem claim_C4_cex :
    gcm_j0 (hash_subkey_of (List.replicate 16 0)) (List.replicate 16 0)
      ≠ j0_claim (hash_subkey_of (List.replicate 16 0)) (List.replicate 16 0) := by
  decide

/-- Claim C4 amended: a 12-byte nonce gives J0 = nonce ++ [0,0,0,1]; any other
nonce gives J0 = GHASH(H, nonce padded with zero bytes to a multiple of 16,
followed by eight zero bytes and then the 8-byte big-endian encoding of
8*len(nonce)), where H is the AES encryption of the zero block under the
key. -/
theorem claim_C4 (key nonce : List Nat) :
    gcm_j0 (hash_subkey_of key) nonce =
      (if nonce.length = 12 then .ok (nonce ++ [0, 0, 0, 1])
       else j0_amended (hash_subkey_of key) nonce) := by
  unfold gcm_j0 j0_amended padTo16
  by_cases h : nonce.length = 12
  · rw [if_pos h, if_pos h]
  · rw [if_neg h, if_neg h]
    dsimp only
    congr 1
    rw [List.replicate_add]
    simp [List.append_assoc, BLOCK_SIZE_BYTES]

/-- Claim C3 counterexample: at a concrete mismatching input the operation
fails with the generic ValueError class that the module also uses for length
contract violations, not with a distinct authentication error kind. -/
theorem claim_C3_cex :
    aes_gcm_decrypt_and_verify [] (List.replicate 16 0) (List.replicate 16 0)
        (List.replicate 12 0)
      = .error (.valueError "Mismatching authentication tag") ∧
    ¬ isAuthError (aes_gcm_decrypt_and_verify [] (List.replicate 16 0)
        (List.replicate 16 0) (List.replicate 12 0)) := by
  have h : aes_gcm_decrypt_and_verify [] (List.replicate 16 0) (List.replicate 16 0)
      (List.replicate 12 0)
      = .error (.valueError "Mismatching authentication tag") := by decide
  refine ⟨h, ?_⟩
  rintro ⟨m, hm⟩
  rw [h] at hm
  simp at hm

/-- Claim C3 amended: for every ciphertext, 16-byte key, tag and nonce, the
GCM decryption reaches the tag comparison (the internal ghash calls succeed),
and it returns the CTR-decrypted plaintext exactly when the supplied tag
equals the computed tag, failing otherwise with the generic
ValueError describing the mismatching authentication tag (no AuthenticationError
class exists in the module) and returning no plaintext. -/
theorem claim_C3 (data key tag nonce : List Nat) (hkey : key.length = 16) :
    ∃ j0 s_tag : List Nat,
      gcm_j0 (hash_subkey_of key) nonce = .ok j0 ∧
      ghash (hash_subkey_of key)
        (data ++ List.replicate ((16 - data.length % 16) % 16) 0
          ++ (to_bytes 0 8 ++ to_bytes (8 * data.length) 8)) = .ok s_tag ∧
      aes_gcm_decrypt_and_verify data key tag nonce =
        (if tag = aes_ctr_encrypt s_tag key j0 then
          .ok (aes_ctr_decrypt data key (inc j0 ++ List.replicate (16 - (inc j0).length) 0))
        else .error (.valueError "Mismatching authentication tag")) := by
  have hek : (key_expansion key).length = 16 * (10 + 1) := by
    rw [key_expansion_length (Or.inl hkey), hkey]
  have hH : (hash_subkey_of key).length = 16 :=
    aes_encrypt_length hek (by omega) _
  obtain ⟨j0, hj0⟩ : ∃ j0, gcm_j0 (hash_subkey_of key) nonce = .ok j0 := by
    unfold gcm_j0
    by_cases h12 : nonce.length = 12
    · rw [if_pos h12]
      exact ⟨_, rfl⟩
    · rw [if_neg h12]
      have hcond : (nonce ++ List.replicate ((BLOCK_SIZE_BYTES - nonce.length
          % BLOCK_SIZE_BYTES) % BLOCK_SIZE_BYTES + 8) 0
          ++ to_bytes (8 * nonce.length) 8).length % 16 = 0 := by
        simp only [List.length_append, List.length_replicate, to_bytes, List.length_map,
          List.length_range, BLOCK_SIZE_BYTES]
        omega
      obtain ⟨r, hr, _⟩ := ghash_ok hH hcond
      exact ⟨r, by dsimp only; exact hr⟩
  obtain ⟨s_tag, hst, _⟩ := ghash_ok hH
    (show (data ++ List.replicate ((16 - data.length % 16) % 16) 0
        ++ (to_bytes 0 8 ++ to_bytes (8 * data.length) 8)).length % 16 = 0 by
      simp only [List.length_append, List.length_replicate, to_bytes, List.length_map,
        List.length_range]
      omega)
  refine ⟨j0, s_tag, hj0, hst, ?_⟩
  unfold aes_gcm_decrypt_and_verify
  rw [hj0]
  dsimp only
  have hst16 : (data ++ List.replicate ((BLOCK_SIZE_BYTES - data.length % BLOCK_SIZE_BYTES)
      % BLOCK_SIZE_BYTES) 0 ++ (to_bytes 0 8 ++ to_bytes (8 * data.length) 8))
      = (data ++ List.replicate ((16 - data.length % 16) % 16) 0
      ++ (to_bytes 0 8 ++ to_bytes (8 * data.length) 8)) := by
    simp [BLOCK_SIZE_BYTES]
  rw [hst16, hst]
  dsimp only
  by_cases htag : tag = aes_ctr_encrypt s_tag key j0
  · rw [if_neg (not_not_intro htag), if_pos htag]
    simp [BLOCK_SIZE_BYTES]
  · rw [if_pos htag, if_neg htag]

/-- Witness for claim C3 on the all-zero key, empty ciphertext, zero tag and
12-byte zero nonce. -/
theorem claim_C3_witness :
    (List.replicate 16 0 : List Nat).length = 16 ∧
    (∃ j0 s_tag : List Nat,
      gcm_j0 (hash_subkey_of (List.replicate 16 0)) (List.replicate 12 0) = .ok j0 ∧
      ghash (hash_subkey_of (List.replicate 16 0))
        (([] : List Nat) ++ List.replicate ((16 - ([] : List Nat).length % 16) % 16) 0
          ++ (to_bytes 0 8 ++ to_bytes (8 * ([] : List Nat).length) 8)) = .ok s_tag ∧
      aes_gcm_decrypt_and_verify [] (List.replicate 16 0) (List.replicate 16 0)
          (List.replicate 12 0) =
        (if (List.replicate 16 0 : List Nat) = aes_ctr_encrypt s_tag (List.replicate 16 0) j0 then
          .ok (aes_ctr_decrypt [] (List.replicate 16 0)
            (inc j0 ++ List.replicate (16 - (inc j0).length) 0))
        else .error (.valueError "Mismatching authentication tag"))) :=
  ⟨by decide,
   claim_C3 [] (List.replicate 16 0) (List.replicate 16 0) (List.replicate 12 0) (by decide)⟩

/-! GF(2^8) facts for the MixColumns inversion, decided on the big-natural
table encoding and transferred to gmul pointwise. -/

theorem LOGN_spec : ∀ i, i < 256 → RIJNDAEL_LOG_TABLE.getD i 0 = (LOGN >>> (8 * i)) &&& 255 := by
  decide

theorem EXPN_spec : ∀ i, i < 256 → RIJNDAEL_EXP_TABLE.getD i 0 = (EXPN >>> (8 * i)) &&& 255 := by
  decide

theorem gmul_eq_gmulN {a b : Nat} (ha : a < 256) (hb : b < 256) : gmul a b = gmulN a b := by
  unfold gmul gmulN
  by_cases h : a = 0 ∨ b = 0
  · rw [if_pos h, if_pos h]
  · rw [if_neg h, if_neg h, LOGN_spec a ha, LOGN_spec b hb,
      EXPN_spec _ (lt_trans (Nat.mod_lt _ (by norm_num)) (by norm_num))]

theorem gmulN_lt (a b : Nat) : gmulN a b < 256 := by
  unfold gmulN
  by_cases h : a = 0 ∨ b = 0
  · rw [if_pos h]
    norm_num
  · rw [if_neg h]
    have := Nat.and_le_right
      (n := EXPN >>> (8 * ((((LOGN >>> (8 * a)) &&& 255) + ((LOGN >>> (8 * b)) &&& 255)) % 255)))
      (m := 255)
    omega

theorem gmul_lt (a b : Nat) : gmul a b < 256 := by
  unfold gmul
  by_cases h : a = 0 ∨ b = 0
  · rw [if_pos h]
    norm_num
  · rw [if_neg h]
    exact getD_lt _ EXP_allB _

theorem xor_nat_left_comm (a b c : Nat) : a ^^^ (b ^^^ c) = b ^^^ (a ^^^ c) := by
  rw [← Nat.xor_assoc, Nat.xor_comm a b, Nat.xor_assoc]

theorem and_shift_cases (x i : Nat) : x &&& (1 <<< i) = 0 ∨ x &&& (1 <<< i) = 1 <<< i := by
  rw [Nat.one_shiftLeft, Nat.and_two_pow x i]
  cases x.testBit i <;> simp

theorem bitfold_linear (t : Nat → Nat) : ∀ (l : List Nat) (a b : Nat),
    l.foldr (fun i acc => (if (a ^^^ b) &&& (1 <<< i) ≠ 0 then t i else 0) ^^^ acc) 0
      = (l.foldr (fun i acc => (if a &&& (1 <<< i) ≠ 0 then t i else 0) ^^^ acc) 0)
        ^^^ (l.foldr (fun i acc => (if b &&& (1 <<< i) ≠ 0 then t i else 0) ^^^ acc) 0)
  | [], _, _ => by simp
  | i :: l, a, b => by
    simp only [List.foldr_cons]
    rw [bitfold_linear t l a b]
    have hdist : (a ^^^ b) &&& (1 <<< i) = (a &&& (1 <<< i)) ^^^ (b &&& (1 <<< i)) :=
      Nat.and_xor_distrib_right
    have hpos : (1 : Nat) <<< i ≠ 0 := by
      rw [Nat.one_shiftLeft]
      exact Nat.pos_iff_ne_zero.mp (Nat.two_pow_pos i)
    rcases and_shift_cases a i with ha | ha <;> rcases and_shift_cases b i with hb | hb
    · rw [if_neg (by rw [hdist, ha, hb]; simp), if_neg (by rw [ha]; simp),
        if_neg (by rw [hb]; simp)]
      simp
    · rw [if_pos (by rw [hdist, ha, hb]; simpa using hpos), if_neg (by rw [ha]; simp),
        if_pos (by rw [hb]; exact hpos)]
      simp only [Nat.zero_xor]
      rw [xor_nat_left_comm]
    · rw [if_pos (by rw [hdist, ha, hb]; simpa using hpos), if_pos (by rw [ha]; exact hpos),
        if_neg (by rw [hb]; simp)]
      simp only [Nat.zero_xor]
      rw [Nat.xor_assoc]
    · rw [if_neg (by rw [hdist, ha, hb]; simp), if_pos (by rw [ha]; exact hpos),
        if_pos (by rw [hb]; exact hpos)]
      simp [Nat.xor_assoc, Nat.xor_comm, xor_nat_left_comm, Nat.xor_self, Nat.zero_xor,
        Nat.xor_zero]
      rw [← Nat.xor_assoc, Nat.xor_self, Nat.zero_xor]

theorem bitXorFold_linear (t : Nat → Nat) (a b : Nat) :
    bitXorFold t (a ^^^ b) = bitXorFold t a ^^^ bitXorFold t b :=
  bitfold_linear t [0, 1, 2, 3, 4, 5, 6, 7] a b

theorem gmulN_repr9 : ∀ x, x < 256 → gmulN x 9 = bitXorFold (fun i => gmulN (1 <<< i) 9) x := by
  decide

theorem gmulN_repr11 : ∀ x, x < 256 → gmulN x 11 = bitXorFold (fun i => gmulN (1 <<< i) 11) x := by
  decide

theorem gmulN_repr13 : ∀ x, x < 256 → gmulN x 13 = bitXorFold (fun i => gmulN (1 <<< i) 13) x := by
  decide

theorem gmulN_repr14 : ∀ x, x < 256 → gmulN x 14 = bitXorFold (fun i => gmulN (1 <<< i) 14) x := by
  decide

theorem gmulN_linear9 {a b : Nat} (ha : a < 256) (hb : b < 256) :
    gmulN (a ^^^ b) 9 = gmulN a 9 ^^^ gmulN b 9 := by
  rw [gmulN_repr9 _ (xor_lt_256 ha hb), gmulN_repr9 a ha, gmulN_repr9 b hb, bitXorFold_linear]

theorem gmulN_linear11 {a b : Nat} (ha : a < 256) (hb : b < 256) :
    gmulN (a ^^^ b) 11 = gmulN a 11 ^^^ gmulN b 11 := by
  rw [gmulN_repr11 _ (xor_lt_256 ha hb), gmulN_repr11 a ha, gmulN_repr11 b hb, bitXorFold_linear]

theorem gmulN_linear13 {a b : Nat} (ha : a < 256) (hb : b < 256) :
    gmulN (a ^^^ b) 13 = gmulN a 13 ^^^ gmulN b 13 := by
  rw [gmulN_repr13 _ (xor_lt_256 ha hb), gmulN_repr13 a ha, gmulN_repr13 b hb, bitXorFold_linear]

theorem gmulN_linear14 {a b : Nat} (ha : a < 256) (hb : b < 256) :
    gmulN (a ^^^ b) 14 = gmulN a 14 ^^^ gmulN b 14 := by
  rw [gmulN_repr14 _ (xor_lt_256 ha hb), gmulN_repr14 a ha, gmulN_repr14 b hb, bitXorFold_linear]

theorem gmulN_comp : ∀ v, v < 256 →
    (gmulN (gmulN v 2) 14 ^^^ gmulN (gmulN v 1) 11 ^^^ gmulN (gmulN v 1) 13 ^^^ gmulN (gmulN v 3) 9 = v) ∧
    (gmulN (gmulN v 3) 14 ^^^ gmulN (gmulN v 2) 11 ^^^ gmulN (gmulN v 1) 13 ^^^ gmulN (gmulN v 1) 9 = 0) ∧
    (gmulN (gmulN v 1) 14 ^^^ gmulN (gmulN v 3) 11 ^^^ gmulN (gmulN v 2) 13 ^^^ gmulN (gmulN v 1) 9 = 0) ∧
    (gmulN (gmulN v 1) 14 ^^^ gmulN (gmulN v 1) 11 ^^^ gmulN (gmulN v 3) 13 ^^^ gmulN (gmulN v 2) 9 = 0) ∧
    (gmulN (gmulN v 2) 9 ^^^ gmulN (gmulN v 1) 14 ^^^ gmulN (gmulN v 1) 11 ^^^ gmulN (gmulN v 3) 13 = 0) ∧
    (gmulN (gmulN v 3) 9 ^^^ gmulN (gmulN v 2) 14 ^^^ gmulN (gmulN v 1) 11 ^^^ gmulN (gmulN v 1) 13 = v) ∧
    (gmulN (gmulN v 1) 9 ^^^ gmulN (gmulN v 3) 14 ^^^ gmulN (gmulN v 2) 11 ^^^ gmulN (gmulN v 1) 13 = 0) ∧
    (gmulN (gmulN v 1) 9 ^^^ gmulN (gmulN v 1) 14 ^^^ gmulN (gmulN v 3) 11 ^^^ gmulN (gmulN v 2) 13 = 0) ∧
    (gmulN (gmulN v 2) 13 ^^^ gmulN (gmulN v 1) 9 ^^^ gmulN (gmulN v 1) 14 ^^^ gmulN (gmulN v 3) 11 = 0) ∧
    (gmulN (gmulN v 3) 13 ^^^ gmulN (gmulN v 2) 9 ^^^ gmulN (gmulN v 1) 14 ^^^ gmulN (gmulN v 1) 11 = 0) ∧
    (gmulN (gmulN v 1) 13 ^^^ gmulN (gmulN v 3) 9 ^^^ gmulN (gmulN v 2) 14 ^^^ gmulN (gmulN v 1) 11 = v) ∧
    (gmulN (gmulN v 1) 13 ^^^ gmulN (gmulN v 1) 9 ^^^ gmulN (gmulN v 3) 14 ^^^ gmulN (gmulN v 2) 11 = 0) ∧
    (gmulN (gmulN v 2) 11 ^^^ gmulN (gmulN v 1) 13 ^^^ gmulN (gmulN v 1) 9 ^^^ gmulN (gmulN v 3) 14 = 0) ∧
    (gmulN (gmulN v 3) 11 ^^^ gmulN (gmulN v 2) 13 ^^^ gmulN (gmulN v 1) 9 ^^^ gmulN (gmulN v 1) 14 = 0) ∧
    (gmulN (gmulN v 1) 11 ^^^ gmulN (gmulN v 3) 13 ^^^ gmulN (gmulN v 2) 9 ^^^ gmulN (gmulN v 1) 14 = 0) ∧
    (gmulN (gmulN v 1) 11 ^^^ gmulN (gmulN v 1) 13 ^^^ gmulN (gmulN v 3) 9 ^^^ gmulN (gmulN v 2) 14 = v) := by
  decide

theorem gmul_linear9 {a b : Nat} (ha : a < 256) (hb : b < 256) :
    gmul (a ^^^ b) 9 = gmul a 9 ^^^ gmul b 9 := by
  rw [gmul_eq_gmulN (xor_lt_256 ha hb) (by norm_num), gmul_eq_gmulN ha (by norm_num),
    gmul_eq_gmulN hb (by norm_num)]
  exact gmulN_linear9 ha hb

theorem gmul_linear11 {a b : Nat} (ha : a < 256) (hb : b < 256) :
    gmul (a ^^^ b) 11 = gmul a 11 ^^^ gmul b 11 := by
  rw [gmul_eq_gmulN (xor_lt_256 ha hb) (by norm_num), gmul_eq_gmulN ha (by norm_num),
    gmul_eq_gmulN hb (by norm_num)]
  exact gmulN_linear11 ha hb

theorem gmul_linear13 {a b : Nat} (ha : a < 256) (hb : b < 256) :
    gmul (a ^^^ b) 13 = gmul a 13 ^^^ gmul b 13 := by
  rw [gmul_eq_gmulN (xor_lt_256 ha hb) (by norm_num), gmul_eq_gmulN ha (by norm_num),
    gmul_eq_gmulN hb (by norm_num)]
  exact gmulN_linear13 ha hb

theorem gmul_linear14 {a b : Nat} (ha : a < 256) (hb : b < 256) :
    gmul (a ^^^ b) 14 = gmul a 14 ^^^ gmul b 14 := by
  rw [gmul_eq_gmulN (xor_lt_256 ha hb) (by norm_num), gmul_eq_gmulN ha (by norm_num),
    gmul_eq_gmulN hb (by norm_num)]
  exact gmulN_linear14 ha hb

theorem gmul_comp (v : Nat) (hv : v < 256) :
    (gmul (gmul v 2) 14 ^^^ gmul (gmul v 1) 11 ^^^ gmul (gmul v 1) 13 ^^^ gmul (gmul v 3) 9 = v) ∧
    (gmul (gmul v 3) 14 ^^^ gmul (gmul v 2) 11 ^^^ gmul (gmul v 1) 13 ^^^ gmul (gmul v 1) 9 = 0) ∧
    (gmul (gmul v 1) 14 ^^^ gmul (gmul v 3) 11 ^^^ gmul (gmul v 2) 13 ^^^ gmul (gmul v 1) 9 = 0) ∧
    (gmul (gmul v 1) 14 ^^^ gmul (gmul v 1) 11 ^^^ gmul (gmul v 3) 13 ^^^ gmul (gmul v 2) 9 = 0) ∧
    (gmul (gmul v 2) 9 ^^^ gmul (gmul v 1) 14 ^^^ gmul (gmul v 1) 11 ^^^ gmul (gmul v 3) 13 = 0) ∧
    (gmul (gmul v 3) 9 ^^^ gmul (gmul v 2) 14 ^^^ gmul (gmul v 1) 11 ^^^ gmul (gmul v 1) 13 = v) ∧
    (gmul (gmul v 1) 9 ^^^ gmul (gmul v 3) 14 ^^^ gmul (gmul v 2) 11 ^^^ gmul (gmul v 1) 13 = 0) ∧
    (gmul (gmul v 1) 9 ^^^ gmul (gmul v 1) 14 ^^^ gmul (gmul v 3) 11 ^^^ gmul (gmul v 2) 13 = 0) ∧
    (gmul (gmul v 2) 13 ^^^ gmul (gmul v 1) 9 ^^^ gmul (gmul v 1) 14 ^^^ gmul (gmul v 3) 11 = 0) ∧
    (gmul (gmul v 3) 13 ^^^ gmul (gmul v 2) 9 ^^^ gmul (gmul v 1) 14 ^^^ gmul (gmul v 1) 11 = 0) ∧
    (gmul (gmul v 1) 13 ^^^ gmul (gmul v 3) 9 ^^^ gmul (gmul v 2) 14 ^^^ gmul (gmul v 1) 11 = v) ∧
    (gmul (gmul v 1) 13 ^^^ gmul (gmul v 1) 9 ^^^ gmul (gmul v 3) 14 ^^^ gmul (gmul v 2) 11 = 0) ∧
    (gmul (gmul v 2) 11 ^^^ gmul (gmul v 1) 13 ^^^ gmul (gmul v 1) 9 ^^^ gmul (gmul v 3) 14 = 0) ∧
    (gmul (gmul v 3) 11 ^^^ gmul (gmul v 2) 13 ^^^ gmul (gmul v 1) 9 ^^^ gmul (gmul v 1) 14 = 0) ∧
    (gmul (gmul v 1) 11 ^^^ gmul (gmul v 3) 13 ^^^ gmul (gmul v 2) 9 ^^^ gmul (gmul v 1) 14 = 0) ∧
    (gmul (gmul v 1) 11 ^^^ gmul (gmul v 1) 13 ^^^ gmul (gmul v 3) 9 ^^^ gmul (gmul v 2) 14 = v) := by
  simp only [gmul_eq_gmulN hv (show (1 : Nat) < 256 by norm_num),
    gmul_eq_gmulN hv (show (2 : Nat) < 256 by norm_num),
    gmul_eq_gmulN hv (show (3 : Nat) < 256 by norm_num)]
  simp only [gmul_eq_gmulN (gmulN_lt v 1) (show (9 : Nat) < 256 by norm_num),
    gmul_eq_gmulN (gmulN_lt v 1) (show (11 : Nat) < 256 by norm_num),
    gmul_eq_gmulN (gmulN_lt v 1) (show (13 : Nat) < 256 by norm_num),
    gmul_eq_gmulN (gmulN_lt v 1) (show (14 : Nat) < 256 by norm_num),
    gmul_eq_gmulN (gmulN_lt v 2) (show (9 : Nat) < 256 by norm_num),
    gmul_eq_gmulN (gmulN_lt v 2) (show (11 : Nat) < 256 by norm_num),
    gmul_eq_gmulN (gmulN_lt v 2) (show (13 : Nat) < 256 by norm_num),
    gmul_eq_gmulN (gmulN_lt v 2) (show (14 : Nat) < 256 by norm_num),
    gmul_eq_gmulN (gmulN_lt v 3) (show (9 : Nat) < 256 by norm_num),
    gmul_eq_gmulN (gmulN_lt v 3) (show (11 : Nat) < 256 by norm_num),
    gmul_eq_gmulN (gmulN_lt v 3) (show (13 : Nat) < 256 by norm_num),
    gmul_eq_gmulN (gmulN_lt v 3) (show (14 : Nat) < 256 by norm_num)]
  exact gmulN_comp v hv

/-! MixColumns inversion. -/

theorem list16_eq (l : List Nat) (h : l.length = 16) :
    l = [l.getD 0 0, l.getD 1 0, l.getD 2 0, l.getD 3 0, l.getD 4 0, l.getD 5 0, l.getD 6 0,
      l.getD 7 0, l.getD 8 0, l.getD 9 0, l.getD 10 0, l.getD 11 0, l.getD 12 0, l.getD 13 0,
      l.getD 14 0, l.getD 15 0] := by
  apply List.ext_getElem
  · simp [h]
  · intro i h1 h2
    rw [h] at h1
    interval_cases i <;> simp [List.getD_eq_getElem?_getD, List.getElem?_eq_getElem, h1] <;>
      rw [List.getElem?_eq_getElem (by omega)] <;> rfl

theorem list16e (l : List Nat) (h : l.length = 16) :
    ∃ a0 a1 a2 a3 a4 a5 a6 a7 a8 a9 a10 a11 a12 a13 a14 a15 : Nat,
      l = [a0, a1, a2, a3, a4, a5, a6, a7, a8, a9, a10, a11, a12, a13, a14, a15] :=
  ⟨_, _, _, _, _, _, _, _, _, _, _, _, _, _, _, _, list16_eq l h⟩

theorem shift_rows_inv_shift {l : List Nat} (h : l.length = 16) :
    shift_rows_inv (shift_rows l) = l := by
  obtain ⟨a0, a1, a2, a3, a4, a5, a6, a7, a8, a9, a10, a11, a12, a13, a14, a15, rfl⟩ :=
    list16e l h
  rfl

theorem mix_column_fwd (a b c d : Nat) :
    mix_column [a, b, c, d] MIX_COLUMN_MATRIX =
      [0 ^^^ gmul a 2 ^^^ gmul b 3 ^^^ gmul c 1 ^^^ gmul d 1,
       0 ^^^ gmul a 1 ^^^ gmul b 2 ^^^ gmul c 3 ^^^ gmul d 1,
       0 ^^^ gmul a 1 ^^^ gmul b 1 ^^^ gmul c 2 ^^^ gmul d 3,
       0 ^^^ gmul a 3 ^^^ gmul b 1 ^^^ gmul c 1 ^^^ gmul d 2] := rfl

theorem mix_column_rev (a b c d : Nat) :
    mix_column [a, b, c, d] MIX_COLUMN_MATRIX_INV =
      [0 ^^^ gmul a 14 ^^^ gmul b 11 ^^^ gmul c 13 ^^^ gmul d 9,
       0 ^^^ gmul a 9 ^^^ gmul b 14 ^^^ gmul c 11 ^^^ gmul d 13,
       0 ^^^ gmul a 13 ^^^ gmul b 9 ^^^ gmul c 14 ^^^ gmul d 11,
       0 ^^^ gmul a 11 ^^^ gmul b 13 ^^^ gmul c 9 ^^^ gmul d 14] := rfl

theorem xor16_transpose (A0 B0 C0 D0 A1 B1 C1 D1 A2 B2 C2 D2 A3 B3 C3 D3 : Nat) :
    (A0 ^^^ B0 ^^^ C0 ^^^ D0) ^^^ (A1 ^^^ B1 ^^^ C1 ^^^ D1) ^^^ (A2 ^^^ B2 ^^^ C2 ^^^ D2) ^^^
      (A3 ^^^ B3 ^^^ C3 ^^^ D3) =
    (A0 ^^^ A1 ^^^ A2 ^^^ A3) ^^^ (B0 ^^^ B1 ^^^ B2 ^^^ B3) ^^^ (C0 ^^^ C1 ^^^ C2 ^^^ C3) ^^^
      (D0 ^^^ D1 ^^^ D2 ^^^ D3) := by
  simp [Nat.xor_assoc, Nat.xor_comm, xor_nat_left_comm]

theorem mix_column_inv_mix (a b c d : Nat) (ha : a < 256) (hb : b < 256) (hc : c < 256)
    (hd : d < 256) :
    mix_column (mix_column [a, b, c, d] MIX_COLUMN_MATRIX) MIX_COLUMN_MATRIX_INV
      = [a, b, c, d] := by
  obtain ⟨ca00, ca01, ca02, ca03, ca10, ca11, ca12, ca13, ca20, ca21, ca22, ca23, ca30, ca31, ca32, ca33⟩ := gmul_comp a ha
  obtain ⟨cb00, cb01, cb02, cb03, cb10, cb11, cb12, cb13, cb20, cb21, cb22, cb23, cb30, cb31, cb32, cb33⟩ := gmul_comp b hb
  obtain ⟨cc00, cc01, cc02, cc03, cc10, cc11, cc12, cc13, cc20, cc21, cc22, cc23, cc30, cc31, cc32, cc33⟩ := gmul_comp c hc
  obtain ⟨cd00, cd01, cd02, cd03, cd10, cd11, cd12, cd13, cd20, cd21, cd22, cd23, cd30, cd31, cd32, cd33⟩ := gmul_comp d hd
  rw [mix_column_fwd]
  simp only [Nat.zero_xor]
  rw [mix_column_rev]
  simp only [Nat.zero_xor, List.cons.injEq, and_true]
  refine ⟨?_, ?_, ?_, ?_⟩
  · simp only [gmul_linear9, gmul_linear11, gmul_linear13, gmul_linear14, gmul_lt, xor_lt_256,
      xor3_lt_256]
    rw [xor16_transpose, ca00, cb01, cc02, cd03]
    simp [Nat.xor_zero, Nat.zero_xor]
  · simp only [gmul_linear9, gmul_linear11, gmul_linear13, gmul_linear14, gmul_lt, xor_lt_256,
      xor3_lt_256]
    rw [xor16_transpose, ca10, cb11, cc12, cd13]
    simp [Nat.xor_zero, Nat.zero_xor]
  · simp only [gmul_linear9, gmul_linear11, gmul_linear13, gmul_linear14, gmul_lt, xor_lt_256,
      xor3_lt_256]
    rw [xor16_transpose, ca20, cb21, cc22, cd23]
    simp [Nat.xor_zero, Nat.zero_xor]
  · simp only [gmul_linear9, gmul_linear11, gmul_linear13, gmul_linear14, gmul_lt, xor_lt_256,
      xor3_lt_256]
    rw [xor16_transpose, ca30, cb31, cc32, cd33]
    simp [Nat.xor_zero, Nat.zero_xor]

theorem iter_mix_inv {l : List Nat} (h : l.length = 16) (hb : allB l) :
    iter_mix_columns (iter_mix_columns l MIX_COLUMN_MATRIX) MIX_COLUMN_MATRIX_INV = l := by
  obtain ⟨a0, a1, a2, a3, a4, a5, a6, a7, a8, a9, a10, a11, a12, a13, a14, a15, rfl⟩ :=
    list16e l h
  have hm : ∀ x ∈ [a0, a1, a2, a3, a4, a5, a6, a7, a8, a9, a10, a11, a12, a13, a14, a15],
      x < 256 := hb
  show mix_column (mix_column [a0, a1, a2, a3] MIX_COLUMN_MATRIX) MIX_COLUMN_MATRIX_INV
      ++ (mix_column (mix_column [a4, a5, a6, a7] MIX_COLUMN_MATRIX) MIX_COLUMN_MATRIX_INV
      ++ (mix_column (mix_column [a8, a9, a10, a11] MIX_COLUMN_MATRIX) MIX_COLUMN_MATRIX_INV
      ++ (mix_column (mix_column [a12, a13, a14, a15] MIX_COLUMN_MATRIX) MIX_COLUMN_MATRIX_INV
      ++ [])))
    = [a0, a1, a2, a3, a4, a5, a6, a7, a8, a9, a10, a11, a12, a13, a14, a15]
  rw [mix_column_inv_mix a0 a1 a2 a3 (hm a0 (by simp)) (hm a1 (by simp)) (hm a2 (by simp))
      (hm a3 (by simp)),
    mix_column_inv_mix a4 a5 a6 a7 (hm a4 (by simp)) (hm a5 (by simp)) (hm a6 (by simp))
      (hm a7 (by simp)),
    mix_column_inv_mix a8 a9 a10 a11 (hm a8 (by simp)) (hm a9 (by simp)) (hm a10 (by simp))
      (hm a11 (by simp)),
    mix_column_inv_mix a12 a13 a14 a15 (hm a12 (by simp)) (hm a13 (by simp)) (hm a14 (by simp))
      (hm a15 (by simp))]
  rfl

/-! Byte-bound preservation of the round operations. -/

theorem sub_bytes_inv_sub : ∀ {l : List Nat}, allB l → sub_bytes_inv (sub_bytes l) = l
  | [], _ => rfl
  | x :: t, h => by
    simp only [sub_bytes, sub_bytes_inv, List.map_cons, List.cons.injEq]
    exact ⟨sbox_inv_sbox x (h x (by simp)),
      sub_bytes_inv_sub (fun y hy => h y (by simp [hy]))⟩

theorem allB_shift_rows {data : List Nat} (h : allB data) : allB (shift_rows data) := by
  intro x hx
  simp only [shift_rows, List.mem_flatten, List.mem_map] at hx
  obtain ⟨sub, ⟨column, _, rfl⟩, hx⟩ := hx
  obtain ⟨row, _, rfl⟩ := List.mem_map.mp hx
  exact getD_lt data h _

theorem allB_shift_rows_inv {data : List Nat} (h : allB data) : allB (shift_rows_inv data) := by
  intro x hx
  simp only [shift_rows_inv, List.mem_flatten, List.mem_map] at hx
  obtain ⟨sub, ⟨column, _, rfl⟩, hx⟩ := hx
  obtain ⟨row, _, rfl⟩ := List.mem_map.mp hx
  exact getD_lt data h _

theorem mix_fold_lt (col row : List Nat) : ∀ (l : List Nat) (s : Nat), s < 256 →
    (l.foldl (fun mixed j => mixed ^^^ gmul (col.getD j 0) (row.getD j 0)) s) < 256
  | [], _, hs => hs
  | j :: l, s, hs => mix_fold_lt col row l _ (xor_lt_256 hs (gmul_lt _ _))

theorem allB_mix_column (col : List Nat) (m : List (List Nat)) : allB (mix_column col m) := by
  intro x hx
  simp only [mix_column, List.mem_map] at hx
  obtain ⟨row, _, rfl⟩ := hx
  exact mix_fold_lt col row (List.range 4) 0 (by norm_num)

theorem allB_iter_mix (data : List Nat) (m : List (List Nat)) :
    allB (iter_mix_columns data m) := by
  intro x hx
  simp only [iter_mix_columns, List.mem_flatten, List.mem_map] at hx
  obtain ⟨sub, ⟨i, _, rfl⟩, hx⟩ := hx
  exact allB_mix_column _ _ x hx

/-! The decrypt loop undoes the encrypt loop round by round. -/

theorem foldl_rev_cancel {α β : Type} (f g : β → α → β) (P : β → Prop) :
    ∀ (l : List α) (s : β), P s →
      (∀ i ∈ l, ∀ t, P t → g (f t i) i = t) →
      (∀ i ∈ l, ∀ t, P t → P (f t i)) →
      l.reverse.foldl g (l.foldl f s) = s := by
  intro l
  induction l with
  | nil => intro s _ _ _; simp
  | cons x xs ih =>
    intro s hs hcancel hpres
    simp only [List.foldl_cons, List.reverse_cons, List.foldl_append, List.foldl_cons,
      List.foldl_nil]
    rw [ih (f s x) (hpres x (by simp) s hs)
      (fun i hi => hcancel i (by simp [hi]))
      (fun i hi => hpres i (by simp [hi]))]
    exact hcancel x (by simp) s hs

theorem dec_enc_round_cancel {ek : List Nat} {R : Nat} (hek : ek.length = 16 * (R + 1))
    {i : Nat} (hi1 : 1 ≤ i) (hiR : i ≤ R) {s : List Nat}
    (hs : s.length = 16) (hsb : allB s) :
    dec_round ek R (enc_round ek R s i) i = s := by
  have hkp : (keypart ek i).length = 16 := keypart_length (by omega)
  unfold enc_round dec_round
  dsimp only
  by_cases hR : i ≠ R
  · rw [if_pos hR, if_pos hR]
    rw [xor_xor_cancel _ _
      (by rw [iter_mix_columns_length _ MIX_COLUMN_MATRIX rfl, hkp])]
    rw [iter_mix_inv (shift_rows_length _) (allB_shift_rows (allB_sub_bytes _))]
    rw [shift_rows_inv_shift (by rw [sub_bytes_length, hs])]
    rw [sub_bytes_inv_sub hsb]
  · rw [if_neg hR, if_neg hR]
    rw [xor_xor_cancel _ _ (by rw [shift_rows_length, hkp])]
    rw [shift_rows_inv_shift (by rw [sub_bytes_length, hs])]
    rw [sub_bytes_inv_sub hsb]

/-- With a well-formed expanded key, one-block decryption inverts one-block
encryption on 16-byte states of bytes. -/
theorem aes_decrypt_encrypt {ek : List Nat} {R : Nat} (hek : ek.length = 16 * (R + 1))
    (hR : 1 ≤ R) (hbk : allB ek) {B : List Nat} (hB : B.length = 16) (hBb : allB B) :
    aes_decrypt (aes_encrypt B ek) ek = B := by
  unfold aes_encrypt aes_decrypt
  dsimp only
  have hrounds : ek.length / BLOCK_SIZE_BYTES - 1 = R := by
    simp only [BLOCK_SIZE_BYTES]
    omega
  rw [hrounds]
  have htk : (ek.take BLOCK_SIZE_BYTES).length = 16 := by
    rw [List.length_take]
    simp only [BLOCK_SIZE_BYTES]
    omega
  have hs0 : (xor B (ek.take BLOCK_SIZE_BYTES)).length = 16 := by
    rw [xor_length, hB, htk]
    omega
  rw [foldl_rev_cancel (enc_round ek R) (dec_round ek R)
    (fun s => s.length = 16 ∧ allB s) (List.range' 1 R) (xor B (ek.take BLOCK_SIZE_BYTES))
    ⟨hs0, allB_xor hBb (allB_take hbk _)⟩
    (fun i hi t ht => by
      rw [List.mem_range'_1] at hi
      exact dec_enc_round_cancel hek (by omega) (by omega) ht.1 ht.2)
    (fun i hi t ht => by
      rw [List.mem_range'_1] at hi
      constructor
      · exact enc_round_length R (by omega) t
      · unfold enc_round
        dsimp only
        by_cases hiR : i ≠ R
        · rw [if_pos hiR]
          exact allB_xor (allB_iter_mix _ _) (allB_take (allB_drop hbk _) _)
        · rw [if_neg hiR]
          exact allB_xor (allB_shift_rows (allB_sub_bytes _)) (allB_take (allB_drop hbk _) _))]
  exact xor_xor_cancel B (ek.take BLOCK_SIZE_BYTES) (by rw [hB, htk])

/-- Claim C1: for every key of 16, 24 or 32 bytes and every 16-byte block of
bytes, aes_decrypt inverts aes_encrypt under the expanded key. -/
theorem claim_C1 (key B : List Nat)
    (hk : key.length = 16 ∨ key.length = 24 ∨ key.length = 32)
    (hkb : allB key) (hB : B.length = 16) (hBb : allB B) :
    aes_decrypt (aes_encrypt B (key_expansion key)) (key_expansion key) = B := by
  obtain ⟨R, hR, hek⟩ : ∃ R, 1 ≤ R ∧ (key_expansion key).length = 16 * (R + 1) := by
    have h := key_expansion_length hk
    rcases hk with h16 | h24 | h32
    · exact ⟨10, by omega, by rw [h, h16]⟩
    · exact ⟨12, by omega, by rw [h, h24]⟩
    · exact ⟨14, by omega, by rw [h, h32]⟩
  exact aes_decrypt_encrypt hek hR (allB_key_expansion hkb) hB hBb

/-- Witness for claim C1 on the FIPS-197 key and plaintext. -/
theorem claim_C1_witness :
    aes_decrypt
      (aes_encrypt
        [0x00, 0x11, 0x22, 0x33, 0x44, 0x55, 0x66, 0x77,
         0x88, 0x99, 0xAA, 0xBB, 0xCC, 0xDD, 0xEE, 0xFF]
        (key_expansion
          [0x00, 0x01, 0x02, 0x03, 0x04, 0x05, 0x06, 0x07,
           0x08, 0x09, 0x0A, 0x0B, 0x0C, 0x0D, 0x0E, 0x0F]))
      (key_expansion
        [0x00, 0x01, 0x02, 0x03, 0x04, 0x05, 0x06, 0x07,
         0x08, 0x09, 0x0A, 0x0B, 0x0C, 0x0D, 0x0E, 0x0F]) =
      [0x00, 0x11, 0x22, 0x33, 0x44, 0x55, 0x66, 0x77,
       0x88, 0x99, 0xAA, 0xBB, 0xCC, 0xDD, 0xEE, 0xFF] :=
  claim_C1
    [0x00, 0x01, 0x02, 0x03, 0x04, 0x05, 0x06, 0x07,
     0x08, 0x09, 0x0A, 0x0B, 0x0C, 0x0D, 0x0E, 0x0F]
    [0x00, 0x11, 0x22, 0x33, 0x44, 0x55, 0x66, 0x77,
     0x88, 0x99, 0xAA, 0xBB, 0xCC, 0xDD, 0xEE, 0xFF]
    (Or.inl (by decide)) (by decide) (by decide) (by decide)


/-! Linear algebra over GF(2)^128 for block_product: xor of blocks is the
group operation, shift_block and vstep are linear maps, and bpSum is the
accumulated sum block_z computes. -/

theorem xor_comm_list : ∀ (a b : List Nat), xor a b = xor b a := by
  intro a
  induction a with
  | nil => intro b; cases b <;> rfl
  | cons x xs ih =>
    intro b
    cases b with
    | nil => rfl
    | cons y ys =>
      show (x ^^^ y) :: xor xs ys = (y ^^^ x) :: xor ys xs
      rw [Nat.xor_comm, ih ys]

theorem xor_assoc_list : ∀ (a b c : List Nat), xor (xor a b) c = xor a (xor b c) := by
  intro a
  induction a with
  | nil => intro b c; rfl
  | cons x xs ih =>
    intro b c
    cases b with
    | nil => rfl
    | cons y ys =>
      cases c with
      | nil => rfl
      | cons z zs =>
        show ((x ^^^ y) ^^^ z) :: xor (xor xs ys) zs = (x ^^^ (y ^^^ z)) :: xor xs (xor ys zs)
        rw [Nat.xor_assoc, ih ys zs]

theorem xor_self_zero : ∀ (a : List Nat), xor a a = List.replicate a.length 0 := by
  intro a
  induction a with
  | nil => rfl
  | cons x xs ih =>
    show (x ^^^ x) :: xor xs xs = 0 :: List.replicate xs.length 0
    rw [Nat.xor_self, ih]

theorem xor_zeros_left : ∀ (a : List Nat) (n : Nat), a.length = n → xor (List.replicate n 0) a = a := by
  intro a
  induction a with
  | nil => intro n h; rw [← h]; rfl
  | cons x xs ih =>
    intro n h
    cases n with
    | zero => simp at h
    | succ m =>
      show (0 ^^^ x) :: xor (List.replicate m 0) xs = x :: xs
      rw [Nat.zero_xor, ih m (by simpa using h)]

theorem xor_z16_left {a : List Nat} (h : a.length = 16) : xor z16 a = a :=
  xor_zeros_left a 16 h

theorem xor_z16_right {a : List Nat} (h : a.length = 16) : xor a z16 = a := by
  rw [xor_comm_list]; exact xor_zeros_left a 16 h

theorem xor_self_z16 {a : List Nat} (h : a.length = 16) : xor a a = z16 := by
  rw [xor_self_zero, h]; rfl

theorem shiftRight_one_xor (a b : Nat) : (a ^^^ b) >>> 1 = (a >>> 1) ^^^ (b >>> 1) := by
  apply Nat.eq_of_testBit_eq
  intro i
  simp [Nat.testBit_shiftRight, Nat.testBit_xor]

theorem carry_if_linear : ∀ c, c < 2 → ∀ n, n < 256 →
    (if c ≠ 0 then n ||| 256 else n) = n ^^^ 256 * c := by decide

theorem mul256_xor_bits : ∀ c1, c1 < 2 → ∀ c2, c2 < 2 →
    256 * (c1 ^^^ c2) = 256 * c1 ^^^ 256 * c2 := by decide

theorem xor_lt_two : ∀ c1, c1 < 2 → ∀ c2, c2 < 2 → c1 ^^^ c2 < 2 := by decide

theorem and_one_mul256 (c : Nat) : (256 * c) &&& 1 = 0 := by
  rw [Nat.and_one_is_mod]; omega

theorem and_one_lt_two (n : Nat) : n &&& 1 < 2 := Nat.lt_succ_of_le Nat.and_le_right

theorem shift_head_linear (a b x y : Nat) :
    ((a ^^^ b) ^^^ (x ^^^ y)) >>> 1 = ((a ^^^ x) >>> 1) ^^^ ((b ^^^ y) >>> 1) := by
  simp only [shiftRight_one_xor]
  simp [Nat.xor_assoc, Nat.xor_comm, xor_nat_left_comm]

theorem shift_carry_linear (a b x y : Nat) (hx : x &&& 1 = 0) (hy : y &&& 1 = 0) :
    ((a ^^^ b) ^^^ (x ^^^ y)) &&& 1 = ((a ^^^ x) &&& 1) ^^^ ((b ^^^ y) &&& 1) := by
  simp only [Nat.and_xor_distrib_right, hx, hy, Nat.xor_zero]

theorem shift_block_aux_step (c n : Nat) (l : List Nat) :
    shift_block_aux c (n :: l) =
      ((if c ≠ 0 then n ||| 256 else n) >>> 1) ::
        shift_block_aux ((if c ≠ 0 then n ||| 256 else n) &&& 1) l := rfl

theorem shift_block_aux_linear : ∀ (A B : List Nat), A.length = B.length → allB A → allB B →
    ∀ (c1 c2 : Nat), c1 < 2 → c2 < 2 →
    shift_block_aux (c1 ^^^ c2) (xor A B) =
      xor (shift_block_aux c1 A) (shift_block_aux c2 B) := by
  intro A
  induction A with
  | nil => intro B _ _ _ c1 c2 _ _; rfl
  | cons a as ih =>
    intro B hlen hA hB c1 c2 hc1 hc2
    cases B with
    | nil => simp at hlen
    | cons b bs =>
      have ha : a < 256 := hA a (List.mem_cons_self ..)
      have hb : b < 256 := hB b (List.mem_cons_self ..)
      have hA' : allB as := fun x hx => hA x (List.mem_cons_of_mem _ hx)
      have hB' : allB bs := fun x hx => hB x (List.mem_cons_of_mem _ hx)
      have hlen' : as.length = bs.length := by simpa using hlen
      rw [show xor (a :: as) (b :: bs) = (a ^^^ b) :: xor as bs from rfl,
        shift_block_aux_step, shift_block_aux_step, shift_block_aux_step,
        carry_if_linear (c1 ^^^ c2) (xor_lt_two c1 hc1 c2 hc2) (a ^^^ b) (xor_lt_256 ha hb),
        carry_if_linear c1 hc1 a ha, carry_if_linear c2 hc2 b hb,
        mul256_xor_bits c1 hc1 c2 hc2]
      show _ :: _ = (_ ^^^ _) :: xor _ _
      rw [shift_head_linear, shift_carry_linear a b _ _ (and_one_mul256 c1) (and_one_mul256 c2)]
      rw [ih bs hlen' hA' hB' _ _ (and_one_lt_two _) (and_one_lt_two _)]

theorem shift_byte_lt : ∀ c, c < 2 → ∀ n, n < 256 →
    ((if c ≠ 0 then n ||| 256 else n) >>> 1) < 256 := by decide

theorem allB_shift_block_aux : ∀ (l : List Nat) (c : Nat), c < 2 → allB l →
    allB (shift_block_aux c l) := by
  intro l
  induction l with
  | nil => intro c _ _ x hx; simp [shift_block_aux] at hx
  | cons n rest ih =>
    intro c hc hl x hx
    rw [shift_block_aux_step] at hx
    rcases List.mem_cons.mp hx with h | h
    · rw [h]; exact shift_byte_lt c hc n (hl n (List.mem_cons_self ..))
    · exact ih _ (and_one_lt_two _) (fun y hy => hl y (List.mem_cons_of_mem _ hy)) x h

theorem allB_shift_block {l : List Nat} (h : allB l) : allB (shift_block l) :=
  allB_shift_block_aux l 0 (by decide) h

theorem shift_block_linear {A B : List Nat} (hlen : A.length = B.length)
    (hA : allB A) (hB : allB B) :
    shift_block (xor A B) = xor (shift_block A) (shift_block B) := by
  have h := shift_block_aux_linear A B hlen hA hB 0 0 (by decide) (by decide)
  simpa [shift_block] using h

theorem allB_block_r : allB block_r := by decide

theorem block_r_length : block_r.length = 16 := by decide

theorem getLastD_xor : ∀ (A B : List Nat), A.length = B.length → ∀ (a b : Nat),
    (xor A B).getLastD (a ^^^ b) = A.getLastD a ^^^ B.getLastD b := by
  intro A
  induction A with
  | nil =>
    intro B h a b
    cases B with
    | nil => rfl
    | cons y ys => simp at h
  | cons x xs ih =>
    intro B h a b
    cases B with
    | nil => simp at h
    | cons y ys =>
      rw [show xor (x :: xs) (y :: ys) = (x ^^^ y) :: xor xs ys from rfl,
        List.getLastD_cons, List.getLastD_cons, List.getLastD_cons,
        ih ys (by simpa using h) x y]

theorem vstep_linear {A B : List Nat} (hA16 : A.length = 16) (hB16 : B.length = 16)
    (hA : allB A) (hB : allB B) : vstep (xor A B) = xor (vstep A) (vstep B) := by
  have hlen : A.length = B.length := by omega
  have hlast : (xor A B).getLastD 0 = A.getLastD 0 ^^^ B.getLastD 0 := by
    have h := getLastD_xor A B hlen 0 0
    simpa using h
  have hsA : (shift_block A).length = 16 := by rw [shift_block_length, hA16]
  have hsB : (shift_block B).length = 16 := by rw [shift_block_length, hB16]
  have hdA : A.getLastD 0 &&& 1 = 0 ∨ A.getLastD 0 &&& 1 = 1 := by
    have h := and_one_lt_two (A.getLastD 0); omega
  have hdB : B.getLastD 0 &&& 1 = 0 ∨ B.getLastD 0 &&& 1 = 1 := by
    have h := and_one_lt_two (B.getLastD 0); omega
  unfold vstep
  dsimp only
  rw [hlast, Nat.and_xor_distrib_right, shift_block_linear hlen hA hB]
  rcases hdA with h1 | h1 <;> rcases hdB with h2 | h2 <;> rw [h1, h2] <;> norm_num
  · rw [xor_assoc_list]
  · rw [xor_assoc_list, xor_assoc_list, xor_comm_list block_r (shift_block B)]
  · rw [xor_assoc_list, xor_comm_list block_r (xor (shift_block B) block_r),
      xor_assoc_list, xor_self_z16 block_r_length,
      xor_z16_right hsB]

theorem vstep_z16 : vstep z16 = z16 := by decide

theorem allB_vstep {v : List Nat} (h : allB v) : allB (vstep v) := by
  unfold vstep
  dsimp only
  split
  · exact allB_xor (allB_shift_block h) allB_block_r
  · exact allB_shift_block h

theorem sel_length {b : Nat} {v : List Nat} (h : v.length = 16) : (sel b v).length = 16 := by
  unfold sel
  split
  · exact h
  · rfl

theorem allB_sel {b : Nat} {v : List Nat} (h : allB v) : allB (sel b v) := by
  unfold sel
  split
  · exact h
  · exact allB_replicate_zero 16

theorem bpSum_length : ∀ (bs : List Nat) (v : List Nat), v.length = 16 →
    (bpSum bs v).length = 16 := by
  intro bs
  induction bs with
  | nil => intro v _; rfl
  | cons b rest ih =>
    intro v h
    show (xor (sel b v) (bpSum rest (vstep v))).length = 16
    rw [xor_length, sel_length h, ih (vstep v) (vstep_length h)]
    rfl

theorem allB_bpSum : ∀ (bs : List Nat) (v : List Nat), allB v → allB (bpSum bs v) := by
  intro bs
  induction bs with
  | nil => intro v _; exact allB_replicate_zero 16
  | cons b rest ih =>
    intro v h
    exact allB_xor (allB_sel h) (ih (vstep v) (allB_vstep h))

theorem sel_z16 (b : Nat) : sel b z16 = z16 := by
  unfold sel
  split <;> rfl

theorem bpSum_z16 : ∀ (bs : List Nat), bpSum bs z16 = z16 := by
  intro bs
  induction bs with
  | nil => rfl
  | cons b rest ih =>
    show xor (sel b z16) (bpSum rest (vstep z16)) = z16
    rw [sel_z16, vstep_z16, ih]
    rfl

theorem xor_left_comm_list (a b c : List Nat) : xor a (xor b c) = xor b (xor a c) := by
  rw [← xor_assoc_list, xor_comm_list a b, xor_assoc_list]

theorem xor_xor_swap (p q r s : List Nat) :
    xor (xor p q) (xor r s) = xor (xor p r) (xor q s) := by
  rw [xor_assoc_list, xor_left_comm_list q r s, ← xor_assoc_list]

theorem sel_linear (b : Nat) (A B : List Nat) :
    sel b (xor A B) = xor (sel b A) (sel b B) := by
  unfold sel
  split
  · rfl
  · exact (xor_self_z16 (by rfl)).symm

theorem bpSum_linear : ∀ (bs : List Nat) (A B : List Nat), A.length = 16 → B.length = 16 →
    allB A → allB B → bpSum bs (xor A B) = xor (bpSum bs A) (bpSum bs B) := by
  intro bs
  induction bs with
  | nil => intro A B _ _ _ _; rfl
  | cons b rest ih =>
    intro A B hA16 hB16 hA hB
    show xor (sel b (xor A B)) (bpSum rest (vstep (xor A B))) = _
    rw [sel_linear, vstep_linear hA16 hB16 hA hB,
      ih (vstep A) (vstep B) (vstep_length hA16) (vstep_length hB16)
        (allB_vstep hA) (allB_vstep hB),
      xor_xor_swap]
    rfl

theorem sel_vstep_comm (b : Nat) (v : List Nat) : sel b (vstep v) = vstep (sel b v) := by
  unfold sel
  split
  · rfl
  · rw [vstep_z16]

theorem bpSum_vstep_comm : ∀ (bs : List Nat) (v : List Nat), v.length = 16 → allB v →
    bpSum bs (vstep v) = vstep (bpSum bs v) := by
  intro bs
  induction bs with
  | nil =>
    intro v _ _
    show z16 = vstep z16
    rw [vstep_z16]
  | cons b rest ih =>
    intro v h16 hb
    show xor (sel b (vstep v)) (bpSum rest (vstep (vstep v))) =
      vstep (xor (sel b v) (bpSum rest (vstep v)))
    rw [vstep_linear (sel_length h16) (bpSum_length rest (vstep v) (vstep_length h16))
        (allB_sel hb) (allB_bpSum rest (vstep v) (allB_vstep hb)),
      sel_vstep_comm, ih (vstep v) (vstep_length h16) (allB_vstep hb)]

theorem bpSum_sel_comm (bs : List Nat) (b : Nat) (v : List Nat) :
    bpSum bs (sel b v) = sel b (bpSum bs v) := by
  unfold sel
  split
  · rfl
  · exact bpSum_z16 bs

theorem bpSum_swap : ∀ (bs2 bs1 : List Nat) (v : List Nat), v.length = 16 → allB v →
    bpSum bs1 (bpSum bs2 v) = bpSum bs2 (bpSum bs1 v) := by
  intro bs2
  induction bs2 with
  | nil =>
    intro bs1 v _ _
    show bpSum bs1 z16 = z16
    exact bpSum_z16 bs1
  | cons b r ih =>
    intro bs1 v h16 hb
    show bpSum bs1 (xor (sel b v) (bpSum r (vstep v))) = _
    rw [bpSum_linear bs1 (sel b v) (bpSum r (vstep v)) (sel_length h16)
        (bpSum_length r (vstep v) (vstep_length h16)) (allB_sel hb)
        (allB_bpSum r (vstep v) (allB_vstep hb)),
      bpSum_sel_comm, ih bs1 (vstep v) (vstep_length h16) (allB_vstep hb),
      bpSum_vstep_comm bs1 v h16 hb]
    rfl

theorem foldl_vstep_length : ∀ (l : List Nat) (v : List Nat), v.length = 16 →
    (l.foldl (fun w _ => vstep w) v).length = 16 := by
  intro l
  induction l with
  | nil => intro v hv; exact hv
  | cons a l2 ih => intro v hv; exact ih (vstep v) (vstep_length hv)

theorem bp_bits_fold_char : ∀ (bits : List Nat) (i : Nat) (z v : List Nat),
    z.length = 16 → v.length = 16 →
    bits.foldl (bp_bit i) (z, v) =
      (xor z (bpSum (bits.map (fun t => if i &&& (1 <<< t) ≠ 0 then 1 else 0)) v),
       bits.foldl (fun w _ => vstep w) v) := by
  intro bits
  induction bits with
  | nil =>
    intro i z v hz _
    show (z, v) = (xor z z16, v)
    rw [xor_z16_right hz]
  | cons b rest ih =>
    intro i z v hz hv
    rw [List.foldl_cons, List.foldl_cons, List.map_cons]
    rw [show bpSum ((if i &&& (1 <<< b) ≠ 0 then 1 else 0) ::
          List.map (fun t => if i &&& (1 <<< t) ≠ 0 then 1 else 0) rest) v =
        xor (sel (if i &&& (1 <<< b) ≠ 0 then 1 else 0) v)
          (bpSum (List.map (fun t => if i &&& (1 <<< t) ≠ 0 then 1 else 0) rest) (vstep v))
        from rfl]
    by_cases hc : i &&& (1 <<< b) ≠ 0
    · rw [show bp_bit i (z, v) b = (xor z v, vstep v) from by
        simp only [bp_bit, if_pos hc]]
      rw [ih i (xor z v) (vstep v) (by rw [xor_length, hz, hv]; rfl) (vstep_length hv)]
      rw [if_pos hc, show sel 1 v = v from by simp [sel], xor_assoc_list]
    · rw [show bp_bit i (z, v) b = (z, vstep v) from by
        simp only [bp_bit, if_neg hc]]
      rw [ih i z (vstep v) hz (vstep_length hv)]
      rw [if_neg hc, show sel 0 v = z16 from by simp [sel],
        xor_z16_left (bpSum_length _ (vstep v) (vstep_length hv))]

theorem toBits_nil : toBits [] = [] := rfl

theorem toBits_cons (x : Nat) (xs : List Nat) :
    toBits (x :: xs) =
      (([7, 6, 5, 4, 3, 2, 1, 0] : List Nat).map
        (fun bit => if x &&& (1 <<< bit) ≠ 0 then 1 else 0)) ++ toBits xs := rfl

theorem bpSum_append : ∀ (u w : List Nat) (v : List Nat), v.length = 16 →
    bpSum (u ++ w) v = xor (bpSum u v) (bpSum w (u.foldl (fun s _ => vstep s) v)) := by
  intro u
  induction u with
  | nil =>
    intro w v hv
    show bpSum w v = xor z16 (bpSum w v)
    rw [xor_z16_left (bpSum_length w v hv)]
  | cons b u2 ih =>
    intro w v hv
    show xor (sel b v) (bpSum (u2 ++ w) (vstep v)) = _
    rw [ih w (vstep v) (vstep_length hv), ← xor_assoc_list]
    rfl

theorem bp_bytes_fold_char : ∀ (xs : List Nat) (z v : List Nat), z.length = 16 → v.length = 16 →
    xs.foldl (fun zv i => ([7, 6, 5, 4, 3, 2, 1, 0] : List Nat).foldl (bp_bit i) zv) (z, v) =
      (xor z (bpSum (toBits xs) v),
       (toBits xs).foldl (fun w _ => vstep w) v) := by
  intro xs
  induction xs with
  | nil =>
    intro z v hz _
    show (z, v) = (xor z z16, v)
    rw [xor_z16_right hz]
  | cons x xs2 ih =>
    intro z v hz hv
    rw [List.foldl_cons]
    rw [bp_bits_fold_char ([7, 6, 5, 4, 3, 2, 1, 0] : List Nat) x z v hz hv]
    have hV8 : (([7, 6, 5, 4, 3, 2, 1, 0] : List Nat).foldl (fun w _ => vstep w) v).length = 16 :=
      foldl_vstep_length _ v hv
    have hBx : (bpSum (([7, 6, 5, 4, 3, 2, 1, 0] : List Nat).map
        (fun t => if x &&& (1 <<< t) ≠ 0 then 1 else 0)) v).length = 16 :=
      bpSum_length _ v hv
    rw [ih (xor z (bpSum _ v)) _ (by rw [xor_length, hz, hBx]; rfl) hV8]
    rw [toBits_cons, bpSum_append _ _ v hv, List.foldl_append]
    rw [List.foldl_map]
    rw [xor_assoc_list]

theorem block_product_core_char {X Y : List Nat} (hY : Y.length = 16) :
    block_product_core X Y = bpSum (toBits X) Y := by
  unfold block_product_core
  rw [bp_bytes_fold_char X (List.replicate BLOCK_SIZE_BYTES 0) Y (by rfl) hY]
  show xor z16 (bpSum (toBits X) Y) = _
  exact xor_z16_left (bpSum_length _ _ hY)

theorem bpSum_cons_eq (b : Nat) (r : List Nat) (v : List Nat) :
    bpSum (b :: r) v = xor (sel b v) (bpSum r (vstep v)) := rfl

theorem bpSum_nil_eq (v : List Nat) : bpSum [] v = z16 := rfl

theorem ebasis_length (k : Nat) : (ebasis k).length = 16 := by
  simp [ebasis]

theorem allB_ebasis (k : Nat) : allB (ebasis k) := by
  intro y hy
  simp only [ebasis, List.mem_map] at hy
  obtain ⟨i, _, hi⟩ := hy
  have h8 : 7 - k % 8 < 8 := by omega
  have hpow : (1 : Nat) <<< (7 - k % 8) < 256 := by
    rw [Nat.shiftLeft_eq, Nat.one_mul]
    calc 2 ^ (7 - k % 8) < 2 ^ 8 := Nat.pow_lt_pow_right (by omega) h8
    _ = 256 := by norm_num
  rw [← hi]
  split
  · exact hpow
  · omega

theorem vstep_ebasis_step : ∀ k, k < 127 → vstep (ebasis k) = ebasis (k + 1) := by decide

theorem vstep8_ebasis (m : Nat) (hm : m < 15) :
    vstep (vstep (vstep (vstep (vstep (vstep (vstep (vstep (ebasis (8 * m))))))))) =
    ebasis (8 * (m + 1)) := by
  revert m hm
  decide

theorem ebasis_shape : ∀ m, m < 16 → ∀ t, t < 8 →
    ebasis (8 * m + t) = List.replicate m 0 ++ (1 <<< (7 - t)) :: List.replicate (15 - m) 0 := by
  decide

theorem z16_split : ∀ m, m < 16 → z16 = List.replicate m 0 ++ (0 : Nat) :: List.replicate (15 - m) 0 := by
  decide

theorem xor_prefix_zeros : ∀ (n : Nat) (A B : List Nat),
    xor (List.replicate n 0 ++ A) (List.replicate n 0 ++ B) = List.replicate n 0 ++ xor A B := by
  intro n
  induction n with
  | zero => intro A B; rfl
  | succ k ih =>
    intro A B
    show (0 ^^^ 0) :: xor (List.replicate k 0 ++ A) (List.replicate k 0 ++ B) =
      0 :: (List.replicate k 0 ++ xor A B)
    rw [Nat.xor_zero, ih]

theorem sel_place {b c : Nat} (m : Nat) (hm : m < 16) :
    sel b (List.replicate m 0 ++ c :: List.replicate (15 - m) 0) =
      List.replicate m 0 ++ (if b ≠ 0 then c else 0) :: List.replicate (15 - m) 0 := by
  unfold sel
  split
  · rfl
  · exact z16_split m hm

theorem gate_ite {c : Prop} [Decidable c] (A B : Nat) :
    (if (if c then (1 : Nat) else 0) ≠ 0 then A else B) = if c then A else B := by
  by_cases h : c
  · simp [h]
  · simp [h]

theorem xor_place_place (m : Nat) {a b : Nat} :
    xor (List.replicate m 0 ++ a :: List.replicate (15 - m) 0)
        (List.replicate m 0 ++ b :: List.replicate (15 - m) 0) =
      List.replicate m 0 ++ (a ^^^ b) :: List.replicate (15 - m) 0 := by
  rw [xor_prefix_zeros]
  congr 1
  show (a ^^^ b) :: xor (List.replicate (15 - m) 0) (List.replicate (15 - m) 0) = _
  rw [xor_self_zero, List.length_replicate]

theorem byte_bits_assemble : ∀ x, x < 256 →
    (if x &&& 1 <<< 7 ≠ 0 then 1 <<< (7 - 0) else 0) ^^^
    ((if x &&& 1 <<< 6 ≠ 0 then 1 <<< (7 - 1) else 0) ^^^
    ((if x &&& 1 <<< 5 ≠ 0 then 1 <<< (7 - 2) else 0) ^^^
    ((if x &&& 1 <<< 4 ≠ 0 then 1 <<< (7 - 3) else 0) ^^^
    ((if x &&& 1 <<< 3 ≠ 0 then 1 <<< (7 - 4) else 0) ^^^
    ((if x &&& 1 <<< 2 ≠ 0 then 1 <<< (7 - 5) else 0) ^^^
    ((if x &&& 1 <<< 1 ≠ 0 then 1 <<< (7 - 6) else 0) ^^^
    ((if x &&& 1 <<< 0 ≠ 0 then 1 <<< (7 - 7) else 0) ^^^ 0))))))) = x := by
  decide

theorem bpSum_byte_basis (m : Nat) (hm : m < 16) (x : Nat) (hx : x < 256) :
    bpSum (([7, 6, 5, 4, 3, 2, 1, 0] : List Nat).map
        (fun t => if x &&& (1 <<< t) ≠ 0 then 1 else 0)) (ebasis (8 * m)) =
      List.replicate m 0 ++ x :: List.replicate (15 - m) 0 := by
  have V1 : vstep (ebasis (8 * m)) = ebasis (8 * m + 1) :=
    vstep_ebasis_step (8 * m) (by omega)
  have V2 : vstep (ebasis (8 * m + 1)) = ebasis (8 * m + 2) := by
    have h := vstep_ebasis_step (8 * m + 1) (by omega)
    rwa [show 8 * m + 1 + 1 = 8 * m + 2 by omega] at h
  have V3 : vstep (ebasis (8 * m + 2)) = ebasis (8 * m + 3) := by
    have h := vstep_ebasis_step (8 * m + 2) (by omega)
    rwa [show 8 * m + 2 + 1 = 8 * m + 3 by omega] at h
  have V4 : vstep (ebasis (8 * m + 3)) = ebasis (8 * m + 4) := by
    have h := vstep_ebasis_step (8 * m + 3) (by omega)
    rwa [show 8 * m + 3 + 1 = 8 * m + 4 by omega] at h
  have V5 : vstep (ebasis (8 * m + 4)) = ebasis (8 * m + 5) := by
    have h := vstep_ebasis_step (8 * m + 4) (by omega)
    rwa [show 8 * m + 4 + 1 = 8 * m + 5 by omega] at h
  have V6 : vstep (ebasis (8 * m + 5)) = ebasis (8 * m + 6) := by
    have h := vstep_ebasis_step (8 * m + 5) (by omega)
    rwa [show 8 * m + 5 + 1 = 8 * m + 6 by omega] at h
  have V7 : vstep (ebasis (8 * m + 6)) = ebasis (8 * m + 7) := by
    have h := vstep_ebasis_step (8 * m + 6) (by omega)
    rwa [show 8 * m + 6 + 1 = 8 * m + 7 by omega] at h
  have E0 : ebasis (8 * m) = List.replicate m 0 ++ (1 <<< (7 - 0) : Nat) :: List.replicate (15 - m) 0 := by
    have h := ebasis_shape m hm 0 (by omega)
    rwa [Nat.add_zero] at h
  have E1 := ebasis_shape m hm 1 (by omega)
  have E2 := ebasis_shape m hm 2 (by omega)
  have E3 := ebasis_shape m hm 3 (by omega)
  have E4 := ebasis_shape m hm 4 (by omega)
  have E5 := ebasis_shape m hm 5 (by omega)
  have E6 := ebasis_shape m hm 6 (by omega)
  have E7 := ebasis_shape m hm 7 (by omega)
  simp only [List.map_cons, List.map_nil, bpSum_cons_eq, bpSum_nil_eq]
  rw [V1, V2, V3, V4, V5, V6, V7, z16_split m hm, E0, E1, E2, E3, E4, E5, E6, E7]
  simp only [sel_place m hm, gate_ite, xor_place_place m]
  congr 2
  exact byte_bits_assemble x hx

theorem bpSum_reconstruct : ∀ (X : List Nat) (m : Nat), allB X → m + X.length = 16 →
    bpSum (toBits X) (ebasis (8 * m)) =
      List.replicate m 0 ++ X ++ List.replicate (16 - m - X.length) 0 := by
  intro X
  induction X with
  | nil =>
    intro m _ hlen
    have hm : m = 16 := by simpa using hlen
    subst hm
    show z16 = List.replicate 16 0 ++ [] ++ List.replicate (16 - 16 - 0) 0
    simp [z16]
  | cons x xs ih =>
    intro m hall hlen
    have hx : x < 256 := hall x (List.mem_cons_self ..)
    have hxs : allB xs := fun y hy => hall y (List.mem_cons_of_mem _ hy)
    have hm : m < 16 := by
      simp only [List.length_cons] at hlen
      omega
    rw [toBits_cons, bpSum_append _ _ _ (ebasis_length (8 * m)),
      bpSum_byte_basis m hm x hx]
    cases xs with
    | nil =>
      have hm15 : m = 15 := by
        simp only [List.length_cons, List.length_nil] at hlen
        omega
      subst hm15
      rw [toBits_nil, bpSum_nil_eq, xor_z16_right (by simp)]
      rfl
    | cons y ys =>
      have hm14 : m < 15 := by
        simp only [List.length_cons] at hlen
        omega
      have hadv : (([7, 6, 5, 4, 3, 2, 1, 0] : List Nat).map
          (fun t => if x &&& (1 <<< t) ≠ 0 then 1 else 0)).foldl
            (fun s _ => vstep s) (ebasis (8 * m)) = ebasis (8 * (m + 1)) := by
        show vstep (vstep (vstep (vstep (vstep (vstep (vstep (vstep (ebasis (8 * m))))))))) = _
        exact vstep8_ebasis m hm14
      rw [hadv, ih (m + 1) hxs (by simp only [List.length_cons] at hlen ⊢; omega)]
      have hsplit : List.replicate (m + 1) (0 : Nat) ++ (y :: ys) ++
          List.replicate (16 - (m + 1) - (y :: ys).length) 0 =
          List.replicate m 0 ++
            (0 :: ((y :: ys) ++ List.replicate (16 - (m + 1) - (y :: ys).length) 0)) := by
        simp [List.replicate_succ', List.append_assoc]
      rw [hsplit, xor_prefix_zeros, List.append_assoc (List.replicate m 0) (x :: y :: ys)]
      congr 1
      show (x ^^^ 0) :: xor (List.replicate (15 - m) 0)
          ((y :: ys) ++ List.replicate (16 - (m + 1) - (y :: ys).length) 0) = _
      rw [Nat.xor_zero,
        xor_zeros_left ((y :: ys) ++ List.replicate (16 - (m + 1) - (y :: ys).length) 0)
          (15 - m) (by
            simp only [List.length_append, List.length_cons, List.length_replicate] at hlen ⊢
            omega)]
      rw [show 16 - (m + 1) - (y :: ys).length = 16 - m - (x :: y :: ys).length by
        simp only [List.length_cons]
        omega]
      rfl

theorem block_product_core_comm {X Y : List Nat} (hX : X.length = 16) (hY : Y.length = 16)
    (hXb : allB X) (hYb : allB Y) :
    block_product_core X Y = block_product_core Y X := by
  rw [block_product_core_char hY, block_product_core_char hX]
  have hrecX : bpSum (toBits X) (ebasis 0) = X := by
    have h := bpSum_reconstruct X 0 hXb (by omega)
    rw [Nat.mul_zero] at h
    simpa [hX] using h
  have hrecY : bpSum (toBits Y) (ebasis 0) = Y := by
    have h := bpSum_reconstruct Y 0 hYb (by omega)
    rw [Nat.mul_zero] at h
    simpa [hY] using h
  calc bpSum (toBits X) Y
      = bpSum (toBits X) (bpSum (toBits Y) (ebasis 0)) := by rw [hrecY]
    _ = bpSum (toBits Y) (bpSum (toBits X) (ebasis 0)) :=
        bpSum_swap (toBits Y) (toBits X) (ebasis 0) (ebasis_length 0) (allB_ebasis 0)
    _ = bpSum (toBits Y) X := by rw [hrecX]

/-- C9: block_product is commutative: for any 16-byte lists X and Y of bytes
below 256 the two products agree, and for inputs where either length differs
from 16 it returns the ValueError about 16-byte blocks. -/
theorem claim_C9 (X Y : List Nat) (hX : X.length = 16) (hY : Y.length = 16)
    (hXb : allB X) (hYb : allB Y) :
    block_product X Y = block_product Y X ∧
    ∀ (A B : List Nat), A.length ≠ 16 ∨ B.length ≠ 16 →
      block_product A B = .error (.valueError "Length of blocks need to be 16 bytes") := by
  constructor
  · unfold block_product
    rw [if_neg (by simp [BLOCK_SIZE_BYTES, hX, hY]), if_neg (by simp [BLOCK_SIZE_BYTES, hX, hY])]
    exact congrArg Except.ok (block_product_core_comm hX hY hXb hYb)
  · intro A B h
    unfold block_product
    rw [if_pos (by simpa [BLOCK_SIZE_BYTES] using h)]

/-- Witness for claim C9 on two concrete 16-byte blocks and one short input. -/
theorem claim_C9_witness :
    block_product
        [0x00, 0x01, 0x02, 0x03, 0x04, 0x05, 0x06, 0x07,
         0x08, 0x09, 0x0A, 0x0B, 0x0C, 0x0D, 0x0E, 0x0F]
        [0xFF, 0xEE, 0xDD, 0xCC, 0xBB, 0xAA, 0x99, 0x88,
         0x77, 0x66, 0x55, 0x44, 0x33, 0x22, 0x11, 0x00] =
      block_product
        [0xFF, 0xEE, 0xDD, 0xCC, 0xBB, 0xAA, 0x99, 0x88,
         0x77, 0x66, 0x55, 0x44, 0x33, 0x22, 0x11, 0x00]
        [0x00, 0x01, 0x02, 0x03, 0x04, 0x05, 0x06, 0x07,
         0x08, 0x09, 0x0A, 0x0B, 0x0C, 0x0D, 0x0E, 0x0F] ∧
    block_product [0x01] [0x02] =
      .error (.valueError "Length of blocks need to be 16 bytes") :=
  ⟨(claim_C9
      [0x00, 0x01, 0x02, 0x03, 0x04, 0x05, 0x06, 0x07,
       0x08, 0x09, 0x0A, 0x0B, 0x0C, 0x0D, 0x0E, 0x0F]
      [0xFF, 0xEE, 0xDD, 0xCC, 0xBB, 0xAA, 0x99, 0x88,
       0x77, 0x66, 0x55, 0x44, 0x33, 0x22, 0x11, 0x00]
      (by decide) (by decide) (by decide) (by decide)).1,
   (claim_C9
      [0x00, 0x01, 0x02, 0x03, 0x04, 0x05, 0x06, 0x07,
       0x08, 0x09, 0x0A, 0x0B, 0x0C, 0x0D, 0x0E, 0x0F]
      [0xFF, 0xEE, 0xDD, 0xCC, 0xBB, 0xAA, 0x99, 0x88,
       0x77, 0x66, 0x55, 0x44, 0x33, 0x22, 0x11, 0x00]
      (by decide) (by decide) (by decide) (by decide)).2
    [0x01] [0x02] (Or.inl (by decide))⟩

end Aes
